import Mathlib

/-!
# travis-dump: pagination/drain loop and CSV projection

A shallow embedding of `travis-dump.go`.  The program's own functions
(`main`, `processAllBuilds`, `createWriter`, `writeToCSV`, `getBuilds`) are
translated one to one; the Go standard library they call (`strconv`, `time`,
`net/url`, `net/http`, `encoding/json`, `encoding/csv`, `fmt`, `log`) is modelled
by small executable definitions or taken as a parameter (`Net`).

Effects are made explicit by passing a `State`: the remote side behind the
HTTP client, the CSV writer, and a history of what the program did (calls of
`getBuilds`, requests sent, pages returned, lines logged, progress lines).
The unbounded `for` loop of `processAllBuilds` takes a step budget; a run that
exhausts it is reported as `Run.unfinished`.
-/

namespace TravisDump

/-! ## Configuration -/

/-- The constant `APIKey` of the source. -/
def APIKey : String := "travis_api_key"

/-- The constant `RepoId` of the source. -/
def RepoId : String := "repo_id"

/-! ## Standard-library values -/

/-- A Go `interface{}` slot filled by the JSON decoder: `none` is `nil`,
`some raw` a dynamically typed value; the program never inspects one. -/
abbrev Interface := Option String

/-- Go `isLeap(year)`. -/
def isLeap (year : Int) : Bool := year % 4 = 0 && (year % 100 != 0 || year % 400 = 0)

/-- Go `daysIn(month, year)`: the number of days of a month. -/
def daysIn (year : Int) (month : Nat) : Nat :=
  if month = 2 then (if isLeap year then 29 else 28)
  else if month = 4 ∨ month = 6 ∨ month = 9 ∨ month = 11 then 30
  else 31

/-- A `time.Time`, by its civil reading in its own location: a date of the
calendar, a time of the day with its nanoseconds, and the zone offset in
seconds east of UTC.  Only readings that an instant has are values of the type:
the month is 1 to 12, the day exists in that month, and so on. -/
structure Time where
  year : Int
  month : Nat
  day : Nat
  hour : Nat
  minute : Nat
  second : Nat
  nsec : Nat
  offset : Int
  month_ok : 1 ≤ month ∧ month ≤ 12
  day_ok : 1 ≤ day ∧ day ≤ daysIn year month
  hour_ok : hour < 24
  minute_ok : minute < 60
  second_ok : second < 60
  nsec_ok : nsec < 1000000000
deriving DecidableEq, Repr

/-- The zero value of `time.Time`: January 1, year 1, 00:00:00 UTC. -/
def Time.zero : Time :=
  { year := 1, month := 1, day := 1, hour := 0, minute := 0, second := 0, nsec := 0,
    offset := 0, month_ok := by decide, day_ok := by decide, hour_ok := by decide,
    minute_ok := by decide, second_ok := by decide, nsec_ok := by decide }

/-- The character of a decimal digit `d < 10`: `'0' + d`. -/
def digitChar (d : Nat) : Char := Char.ofNat (48 + d)

/-- The digit loop of `strconv.formatBits` for base 10: the digits of `u` are
put in front of `acc`, least significant first; `fuel` bounds the number of
digits. -/
def formatBits : Nat → Nat → List Char → List Char
  | 0, _, acc => acc
  | fuel + 1, u, acc =>
    if u < 10 then digitChar u :: acc
    else formatBits fuel (u / 10) (digitChar (u % 10) :: acc)

/-- Decimal digits of an unsigned value (`u + 1` bounds its number of digits). -/
def formatUint (u : Nat) : List Char := formatBits (u + 1) u []

/-- The characters of `strconv.FormatInt(i, 10)`: a `'-'` for a negative value,
then the decimal digits of its magnitude. -/
def formatIntChars (i : Int) : List Char :=
  if i < 0 then '-' :: formatUint i.natAbs else formatUint i.natAbs

/-- Go `strconv.FormatInt(i, 10)`; `fmt`'s verb `%d` renders an `int` the same way. -/
def FormatInt (i : Int) : String := String.mk (formatIntChars i)

/-- Go `time.appendInt`: the decimal digits of `x`, zero-padded to `width`,
after a `'-'` when `x` is negative. -/
def appendInt (x : Int) (width : Nat) : List Char :=
  let ds := formatUint x.natAbs
  (if x < 0 then ['-'] else []) ++ List.replicate (width - ds.length) '0' ++ ds

/-- The zone part `Z07:00` of the layout: `Z` for UTC, else sign, hours and
minutes of the offset. -/
def formatZone (offset : Int) : List Char :=
  if offset = 0 then ['Z']
  else
    let zone := Int.tdiv offset 60
    let sign := if zone < 0 then '-' else '+'
    let z := zone.natAbs
    sign :: (appendInt (z / 60 : Nat) 2 ++ ':' :: appendInt (z % 60 : Nat) 2)

/-- Go `t.Format(time.RFC3339)`, layout `2006-01-02T15:04:05Z07:00`: the layout
has no fraction of a second, and the zone is written to the minute. -/
def Time.FormatRFC3339 (t : Time) : String :=
  String.mk (appendInt t.year 4 ++ '-' :: appendInt t.month 2 ++ '-' :: appendInt t.day 2
    ++ 'T' :: appendInt t.hour 2 ++ ':' :: appendInt t.minute 2 ++ ':' :: appendInt t.second 2
    ++ formatZone t.offset)

/-! ## Wire format -/

structure TravisUser where
  Type_ : String
  Href : String
  Representation : String
  ID : Int
  Login : String
deriving DecidableEq, Repr

/-- The anonymous struct of `TravisBuild.Permissions`. -/
structure Permissions where
  Read : Bool
  Cancel : Bool
  Restart : Bool
deriving DecidableEq, Repr

/-- The anonymous struct of `TravisBuild.Repository`. -/
structure Repository where
  Type_ : String
  Href : String
  Representation : String
  ID : Int
  Name : String
  Slug : String
deriving DecidableEq, Repr

/-- The anonymous struct of `TravisBuild.Branch`. -/
structure Branch where
  Type_ : String
  Href : String
  Representation : String
  Name : String
deriving DecidableEq, Repr

/-- The anonymous struct of `TravisBuild.Commit`. -/
structure Commit where
  Type_ : String
  Representation : String
  ID : Int
  Sha : String
  Ref : String
  Message : String
  CompareURL : String
  CommittedAt : Time
deriving DecidableEq, Repr

/-- The anonymous struct of the elements of `TravisBuild.Jobs`. -/
structure Job where
  Type_ : String
  Href : String
  Representation : String
  ID : Int
deriving DecidableEq, Repr

structure TravisBuild where
  Type_ : String
  Href : String
  Representation : String
  Permissions : Permissions
  ID : Int
  Number : String
  State : String
  Duration : Int
  EventType : String
  PreviousState : String
  PullRequestTitle : String
  PullRequestNumber : Interface
  StartedAt : Time
  FinishedAt : Time
  Repository : Repository
  Branch : Branch
  Tag : Interface
  Commit : Commit
  Jobs : List Job
  Stages : List Interface
  CreatedBy : TravisUser
deriving DecidableEq, Repr

/-- The anonymous struct of `Pagination.Next`, `Pagination.First` and
`Pagination.Last`. -/
structure PageRef where
  Href : String
  Offset : Int
  Limit : Int
deriving DecidableEq, Repr

/-- The anonymous struct of `TravisBuildResponse.Pagination`. -/
structure Pagination where
  Limit : Int
  Offset : Int
  Count : Int
  IsFirst : Bool
  IsLast : Bool
  Next : PageRef
  Prev : Interface
  First : PageRef
  Last : PageRef
deriving DecidableEq, Repr

structure TravisBuildResponse where
  Type_ : String
  Href : String
  Representation : String
  Pagination : Pagination
  Builds : List TravisBuild
deriving DecidableEq, Repr

/-- The zero value of `PageRef`. -/
def PageRef.zero : PageRef := ⟨"", 0, 0⟩

/-- The zero value of `TravisBuildResponse`, what `var buildResponse
TravisBuildResponse` declares: empty strings, zero numbers, `false`, `nil`. -/
def TravisBuildResponse.zero : TravisBuildResponse :=
  { Type_ := "", Href := "", Representation := "",
    Pagination :=
      { Limit := 0, Offset := 0, Count := 0, IsFirst := false, IsLast := false,
        Next := PageRef.zero, Prev := none, First := PageRef.zero, Last := PageRef.zero },
    Builds := [] }

/-! ## Machine integers -/

/-- Go `int` arithmetic (64 bits, two's complement): the result of an
addition or subtraction wraps into `[-2^63, 2^63)`. -/
def wrapInt (x : Int) : Int := (x + 2 ^ 63) % 2 ^ 64 - 2 ^ 63

/-! ## The CSV writer -/

/-- A `*csv.Writer` on the output file `travis-builds.csv`: the records handed
to `Write`, in order, the number of calls of `Flush`, and the rows of the output
file.  `Write` puts a record into the writer's buffer and `Flush` carries the
buffer to the file, so `file` holds the records handed over before the last
`Flush`.  (A buffer of 4096 bytes that fills up is carried over without a
`Flush`; rows that reach the file that way before the first `Flush` are not
counted in `file`.) -/
structure Writer where
  records : List (List String)
  flushes : Nat
  file : List (List String)
deriving DecidableEq, Repr

/-- Go `writer.Write(record)` (its error is ignored by the program): the record
goes to the buffer. -/
def Writer.Write (w : Writer) (record : List String) : Writer :=
  { w with records := w.records ++ [record] }

/-- Go `writer.Flush()`: everything handed to `Write` so far is in the file. -/
def Writer.Flush (w : Writer) : Writer :=
  { w with flushes := w.flushes + 1, file := w.records }

/-- The header row of `createWriter`. -/
def headers : List String :=
  ["ID", "Number", "State", "EventType", "RepositoryName", "BranchName",
   "PullRequestTitle", "StartedAt", "FinishedAt", "Duration", "CreatedByID",
   "CreatedByLogin"]

/-- Source `createWriter`: a writer on the freshly created, empty file
`travis-builds.csv` (the error of `os.Create` is ignored), with the header row
handed to `Write`. -/
def createWriter : Writer :=
  let writer : Writer := { records := [], flushes := 0, file := [] }
  writer.Write headers

/-- The `line` that `writeToCSV` builds for one build. -/
def line (build : TravisBuild) : List String :=
  [FormatInt build.ID,
   build.Number,
   build.State,
   build.EventType,
   build.Repository.Name,
   build.Branch.Name,
   build.PullRequestTitle,
   build.StartedAt.FormatRFC3339,
   build.FinishedAt.FormatRFC3339,
   FormatInt build.Duration,
   FormatInt build.CreatedBy.ID,
   build.CreatedBy.Login]

/-- Source `writeToCSV`: `for _, build := range builds { writer.Write(line) }`. -/
def writeToCSV : List TravisBuild → Writer → Writer
  | [], writer => writer
  | build :: rest, writer => writeToCSV rest (writer.Write (line build))

/-! ## URLs (`net/url`) -/

/-- Whether `n` is the code of an ASCII letter or digit. -/
def isAlnumCode (n : Nat) : Bool :=
  (48 ≤ n && n ≤ 57) || (65 ≤ n && n ≤ 90) || (97 ≤ n && n ≤ 122)

/-- Go `strings.Cut(s, sep)` for a one-byte separator: the text before the
first `sep` and, when there is one, the text after it. -/
def cut (sep : Char) : List Char → List Char × Option (List Char)
  | [] => ([], none)
  | c :: cs => if c = sep then ([], some cs) else (c :: (cut sep cs).1, (cut sep cs).2)

/-- Go `stringContainsCTLByte`, for one character: a byte below `' '` or `0x7f`
(the bytes of a character beyond ASCII are all `0x80` or more). -/
def isCTL (c : Char) : Bool := c.toNat < 32 || c.toNat = 127

/-- Go `getScheme`: the scheme before the first `:` and the text after it, or
no scheme when the text does not start like one; `seen` is the text read so far. -/
def getScheme (rawURL : List Char) : List Char → List Char → Except String (List Char × List Char)
  | _, [] => .ok ([], rawURL)
  | seen, c :: cs =>
    if (65 ≤ c.toNat && c.toNat ≤ 90) || (97 ≤ c.toNat && c.toNat ≤ 122) then
      getScheme rawURL (seen ++ [c]) cs
    else if (48 ≤ c.toNat && c.toNat ≤ 57) || c = '+' || c = '-' || c = '.' then
      if seen = [] then .ok ([], rawURL) else getScheme rawURL (seen ++ [c]) cs
    else if c = ':' then
      if seen = [] then .error "missing protocol scheme" else .ok (seen, cs)
    else .ok ([], rawURL)

/-- Go `ishex`. -/
def ishex (c : Char) : Bool :=
  (48 ≤ c.toNat && c.toNat ≤ 57) || (97 ≤ c.toNat && c.toNat ≤ 102) ||
    (65 ≤ c.toNat && c.toNat ≤ 70)

/-- Go `unhex`. -/
def unhex (c : Char) : Nat :=
  if 48 ≤ c.toNat && c.toNat ≤ 57 then c.toNat - 48
  else if 97 ≤ c.toNat && c.toNat ≤ 102 then c.toNat - 97 + 10
  else if 65 ≤ c.toNat && c.toNat ≤ 70 then c.toNat - 65 + 10
  else 0

/-- The check of Go `unescape` outside a host: every `%` is followed by two
hexadecimal digits. -/
def validEscapes : List Char → Bool
  | [] => true
  | c :: cs =>
    if c = '%' then
      match cs with
      | a :: b :: rest => ishex a && ishex b && validEscapes rest
      | _ => false
    else validEscapes cs

/-- The UTF-8 bytes of a character. -/
def utf8Bytes (c : Char) : List Nat :=
  let v := c.toNat
  if v < 128 then [v]
  else if v < 2048 then [192 + v / 64, 128 + v % 64]
  else if v < 65536 then [224 + v / 4096, 128 + v / 64 % 64, 128 + v % 64]
  else [240 + v / 262144, 128 + v / 4096 % 64, 128 + v / 64 % 64, 128 + v % 64]

/-- Go `unescape` outside a host and a query component, on text whose escapes
are valid: the bytes of the text with every `%XY` replaced by the byte `XY`. -/
def unescapeBytes : List Char → List Nat
  | [] => []
  | c :: cs =>
    if c = '%' then
      match cs with
      | a :: b :: rest => (unhex a * 16 + unhex b) :: unescapeBytes rest
      | _ => []
    else utf8Bytes c ++ unescapeBytes cs

/-- The upper-case hexadecimal digit of `d < 16`. -/
def upperhex (d : Nat) : Char := if d < 10 then Char.ofNat (48 + d) else Char.ofNat (55 + d)

/-- Go `escape`: every byte that `should` be escaped is written `%XY`. -/
def escapeBytes (should : Nat → Bool) : List Nat → List Char
  | [] => []
  | b :: bs =>
    if should b then '%' :: upperhex (b / 16) :: upperhex (b % 16) :: escapeBytes should bs
    else Char.ofNat b :: escapeBytes should bs

/-- Go `shouldEscape(c, encodePath)` on a byte: letters, digits, `-_.~` and the
reserved `$&+,/:;=@` stay; `?` and every other byte are escaped. -/
def shouldEscapePath (b : Nat) : Bool :=
  !(isAlnumCode b || b = 45 || b = 95 || b = 46 || b = 126 ||
    b = 36 || b = 38 || b = 43 || b = 44 || b = 47 || b = 58 || b = 59 || b = 61 || b = 64)

/-- Go `shouldEscape(c, encodeFragment)` on a byte: letters, digits, `-_.~`,
the reserved `$&+,/:;=?@` and `!()*` stay; every other byte is escaped. -/
def shouldEscapeFragment (b : Nat) : Bool :=
  !(isAlnumCode b || b = 45 || b = 95 || b = 46 || b = 126 ||
    b = 36 || b = 38 || b = 43 || b = 44 || b = 47 || b = 58 || b = 59 || b = 61 || b = 63 ||
    b = 64 || b = 33 || b = 40 || b = 41 || b = 42)

/-- Go `validEncoded(s, mode)`: every byte is one of `!$&'()*+,;=:@[]%` or need
not be escaped in this mode. -/
def validEncoded (should : Nat → Bool) (s : List Char) : Bool :=
  s.all (fun c =>
    c.toNat = 33 || c.toNat = 36 || c.toNat = 38 || c.toNat = 39 || c.toNat = 40 ||
    c.toNat = 41 || c.toNat = 42 || c.toNat = 43 || c.toNat = 44 || c.toNat = 59 ||
    c.toNat = 61 || c.toNat = 58 || c.toNat = 64 || c.toNat = 91 || c.toNat = 93 ||
    c.toNat = 37 || !should c.toNat)

/-- What Go `EscapedPath` and `EscapedFragment` return for text parsed from a
URL: the text as written when it is validly encoded, else its bytes escaped
anew. -/
def escaped (should : Nat → Bool) (s : List Char) : List Char :=
  if validEncoded should s then s else escapeBytes should (unescapeBytes s)

/-- A parsed `*url.URL` with a host, by what `String()` writes of it: scheme,
host, the path as `EscapedPath()` returns it, the query as written (marked
`ForceQuery` when the URL ends in a bare `?`), and the fragment as
`EscapedFragment()` returns it (empty when there is none). -/
structure URL where
  Scheme : String
  Host : String
  EscapedPath : String
  ForceQuery : Bool
  RawQuery : String
  EscapedFragment : String
deriving DecidableEq, Repr

/-- Go `u.String()` for a URL with a host. -/
def URL.String (u : URL) : String :=
  u.Scheme ++ "://" ++ u.Host ++ u.EscapedPath ++
    (if u.ForceQuery || u.RawQuery ≠ "" then "?" ++ u.RawQuery else "") ++
    (if u.EscapedFragment ≠ "" then "#" ++ u.EscapedFragment else "")

/-- Go `url.Parse(rawURL)` for a URL of the form `scheme://host/path?query#fragment`
whose host is a plain name, as every URL `getBuilds` formats is.  The fragment
is cut off at the first `#`; a control character before it is an error; the
query is cut off at the first `?` and kept as written; the path and the
fragment must have valid `%` escapes.  Other forms of URL (no scheme, no `//`,
user information, port, address literal) do not arise and are reported as not
modelled. -/
def parseURL (rawURL : String) : Except String URL :=
  let u := (cut '#' rawURL.data).1
  let frag := ((cut '#' rawURL.data).2).getD []
  if u.any isCTL then .error "net/url: invalid control character in URL"
  else
    match getScheme u [] u with
    | .error err => .error err
    | .ok (scheme, rest) =>
      let forceQuery : Bool := rest.getLast? = some '?' && rest.count '?' = 1
      let rest1 := if forceQuery then rest.dropLast else (cut '?' rest).1
      let rawQuery := if forceQuery then [] else ((cut '?' rest).2).getD []
      match rest1 with
      | s1 :: s2 :: more =>
        if scheme ≠ [] ∧ s1 = '/' ∧ s2 = '/' then
          let authority := (cut '/' more).1
          let path := match (cut '/' more).2 with
            | some p => '/' :: p
            | none => []
          if authority ≠ [] ∧ authority.all (fun c => isAlnumCode c.toNat || c = '-' || c = '.')
          then
            if validEscapes path then
              if validEscapes frag then
                .ok { Scheme := String.mk (scheme.map Char.toLower),
                      Host := String.mk authority,
                      EscapedPath := String.mk (escaped shouldEscapePath path),
                      ForceQuery := forceQuery,
                      RawQuery := String.mk rawQuery,
                      EscapedFragment := String.mk (escaped shouldEscapeFragment frag) }
              else .error "invalid URL escape"
            else .error "invalid URL escape"
          else .error "authority not modelled"
        else .error "URL form not modelled"
      | _ => .error "URL form not modelled"

/-! ## The HTTP client and the JSON decoder -/

/-- Go `validHeaderFieldByte`, and `isToken` of a method: a token character
(a letter, a digit, or one of ``!#$%&'*+-.^_`|~``). -/
def isTokenChar (c : Char) : Bool :=
  isAlnumCode c.toNat ||
    c.toNat ∈ [33, 35, 36, 37, 38, 39, 42, 43, 45, 46, 94, 95, 96, 124, 126]

/-- The letter cases of a canonical header key: upper case at the start and
after each `-`, lower case elsewhere. -/
def canonicalCase : Bool → List Char → List Char
  | _, [] => []
  | upper, c :: cs =>
    (if upper then c.toUpper else c.toLower) :: canonicalCase (c = '-') cs

/-- Go `textproto.CanonicalMIMEHeaderKey`: a key made of token characters is put
in canonical letter case, any other key is left as it is. -/
def CanonicalMIMEHeaderKey (key : String) : String :=
  if key.data.all isTokenChar then String.mk (canonicalCase true key.data) else key

/-- A `*http.Request` as the program builds it: method, parsed URL and the
header fields, under their canonical keys, in the order of the calls of
`Header.Add`. -/
structure Request where
  Method : String
  URL : URL
  Header : List (String × String)
deriving DecidableEq, Repr

/-- Go `req.Header.Add(key, value)`: the value is added under the canonical
form of the key. -/
def Request.HeaderAdd (req : Request) (key value : String) : Request :=
  { req with Header := req.Header ++ [(CanonicalMIMEHeaderKey key, value)] }

/-- Go `req.Header.Get(key)`: the first value under the canonical form of the
key, or the empty string. -/
def Request.HeaderGet (req : Request) (key : String) : String :=
  match req.Header.lookup (CanonicalMIMEHeaderKey key) with
  | some value => value
  | none => ""

/-- What lies outside the program: `σ` is the state of the remote side and the
network, `β` the type of response bodies.
* `Do req w` is `client.Do(req)` in the state `w`: a transport error or a
  response body, and the next state;
* `Decode body` is `json.NewDecoder(body).Decode(&v)` on a zero-valued `v`: the
  value left in `v`, and the error when decoding fails. -/
structure Net (σ β : Type) where
  Do : Request → σ → Except String β × σ
  Decode : β → TravisBuildResponse × Option String

/-- Go `http.NewRequest(method, url, nil)`: an empty method stands for `GET`,
the method must be a token, and the URL is parsed; the request has the parsed
URL and no header field yet. -/
def NewRequest (method url : String) : Except String Request :=
  let method := if method = "" then "GET" else method
  if method.data.all isTokenChar then
    match parseURL url with
    | .error err => .error err
    | .ok u => .ok { Method := method, URL := u, Header := [] }
  else .error "net/http: invalid method"

/-- One progress line `Progress:  <fetched>  of:  <total>` printed by
`processAllBuilds`. -/
structure Progress where
  fetched : Int
  total : Int
deriving DecidableEq, Repr

/-- The state a run passes along: the remote side, the CSV writer, and the
history of the run. -/
structure State (σ : Type) where
  /-- state of the remote side and the network -/
  remote : σ
  /-- arguments `(repo, limit, offset)` of the calls of `getBuilds`, in order -/
  calls : List (String × Int × Int)
  /-- requests handed to `client.Do`, in order -/
  sent : List Request
  /-- pages returned by `getBuilds`, in order -/
  pages : List TravisBuildResponse
  /-- decode errors given to `log.Println` -/
  logged : List String
  /-- progress lines given to `fmt.Println` -/
  stdout : List Progress
  /-- the CSV writer -/
  writer : Writer

/-- The result of a call that may panic. -/
inductive Outcome (α : Type) where
  | ok (value : α)
  | panic (err : String)
deriving DecidableEq, Repr

/-- The URL `getBuilds` formats with `fmt.Sprintf`. -/
def buildsURL (repo : String) (limit offset : Int) : String :=
  "https://api.travis-ci.com/repo/" ++ repo ++ "/builds?limit=" ++ FormatInt limit
    ++ "&offset=" ++ FormatInt offset ++ "&sort_by=started_at:desc"

/-- Source `getBuilds`. -/
def getBuilds {σ β : Type} (net : Net σ β) (repo : String) (limit offset : Int)
    (s : State σ) : Outcome TravisBuildResponse × State σ :=
  let s := { s with calls := s.calls ++ [(repo, limit, offset)] }
  let url := buildsURL repo limit offset
  let token := "token " ++ APIKey
  match NewRequest "GET" url with
  | .error err => (.panic err, s)
  | .ok req =>
    let req := req.HeaderAdd "Travis-API-Version" "3"
    let req := req.HeaderAdd "Authorization" token
    match net.Do req s.remote with
    | (.error err, remote) => (.panic err, { s with remote := remote, sent := s.sent ++ [req] })
    | (.ok body, remote) =>
      let s := { s with remote := remote, sent := s.sent ++ [req] }
      match net.Decode body with
      | (buildResponse, some err) =>
        (.ok buildResponse,
          { s with logged := s.logged ++ [err], pages := s.pages ++ [buildResponse] })
      | (buildResponse, none) =>
        (.ok buildResponse, { s with pages := s.pages ++ [buildResponse] })

/-- The URL of `buildsURL repo limit offset`, in parts. -/
def travisURL (repo : String) (limit offset : Int) : URL :=
  { Scheme := "https", Host := "api.travis-ci.com",
    EscapedPath := "/repo/" ++ repo ++ "/builds",
    ForceQuery := false,
    RawQuery := "limit=" ++ FormatInt limit ++ "&offset=" ++ FormatInt offset
      ++ "&sort_by=started_at:desc",
    EscapedFragment := "" }

/-- The request `getBuilds` hands to the client when the URL parses to
`travisURL repo limit offset`. -/
def requestFor (repo : String) (limit offset : Int) : Request :=
  { Method := "GET", URL := travisURL repo limit offset,
    Header := [("Travis-Api-Version", "3"), ("Authorization", "token " ++ APIKey)] }

/-- Neither `#` nor a control character. -/
def plainChar (x : Char) : Bool := x != '#' && !isCTL x

/-- A character of a plain host name. -/
def hostChar (x : Char) : Bool := isAlnumCode x.toNat || x = '-' || x = '.'

/-- A character that stands in a URL path as it is: not `#`, not `?`, not a
control character, and either `%` or a character Go does not escape in a path
(a letter, a digit, or one of `-_.~$&+,/:;=@`). -/
def pathChar (x : Char) : Bool :=
  x != '#' && x != '?' && !isCTL x && (x.toNat = 37 || !shouldEscapePath x.toNat)

/-- A repository identifier as the provider knows it, written for a URL: a
numeric id such as `1234`, a URL-encoded slug such as `rails%2Frails`, and
generally any text of characters that stand in a path as they are, with every
`%` starting an escape of two hexadecimal digits. -/
def urlSafe (repo : String) : Bool := repo.data.all pathChar && validEscapes repo.data

/-- How a run ended: the loop reached `break` (`done`), a call panicked
(`panicked`), or the step budget ran out with the loop still going
(`unfinished`). -/
inductive Run (σ : Type) where
  | done (s : State σ)
  | panicked (err : String) (s : State σ)
  | unfinished (s : State σ)

/-- The state a run ended in. -/
def Run.state {σ : Type} : Run σ → State σ
  | .done s => s
  | .panicked _ s => s
  | .unfinished s => s

/-- The `for` loop of `processAllBuilds`, at most `fuel` iterations of it, with
the loop variables `fetched` and `nextOffset`. -/
def processLoop {σ β : Type} (net : Net σ β) (repo : String) (limit initOffset : Int) :
    Nat → Int → Int → State σ → Run σ
  | 0, _, _, s => .unfinished s
  | fuel + 1, fetched, nextOffset, s =>
    match getBuilds net repo limit nextOffset s with
    | (.panic err, s) => .panicked err s
    | (.ok builds, s) =>
      let fetched := wrapInt (fetched + builds.Builds.length)
      let progress : Progress :=
        { fetched := fetched, total := wrapInt (builds.Pagination.Count - initOffset) }
      let s := { s with stdout := s.stdout ++ [progress] }
      let s := { s with writer := writeToCSV builds.Builds s.writer }
      if builds.Pagination.Next.Offset = 0 then .done s
      else processLoop net repo limit initOffset fuel fetched builds.Pagination.Next.Offset s

/-- Source `processAllBuilds`; the writer is `s.writer`. -/
def processAllBuilds {σ β : Type} (net : Net σ β) (repo : String) (nextOffset : Int)
    (fuel : Nat) (s : State σ) : Run σ :=
  let limit : Int := 100
  let fetched : Int := 0
  let initOffset := nextOffset
  processLoop net repo limit initOffset fuel fetched nextOffset s

/-- The state in which `main` calls `processAllBuilds`: the remote side as it
is, the writer `createWriter` returned, and an empty history. -/
def State.start {σ : Type} (remote : σ) (writer : Writer) : State σ :=
  { remote := remote, calls := [], sent := [], pages := [], logged := [], stdout := [],
    writer := writer }

/-- Source `main`. -/
def main {σ β : Type} (net : Net σ β) (fuel : Nat) (remote : σ) : Run σ :=
  let writer := createWriter
  match processAllBuilds net RepoId 7200 fuel (State.start remote writer) with
  | .done s => .done { s with writer := s.writer.Flush }
  | r => r

/-- The data rows of a list of pages: each page's builds in order, page after page. -/
def rowsOf (pages : List TravisBuildResponse) : List (List String) :=
  pages.flatMap (fun page => page.Builds.map line)

/-- The next offset a page reports, `Pagination.Next.Offset`. -/
def nextOf (page : TravisBuildResponse) : Int := page.Pagination.Next.Offset

/-- The progress lines the loop prints for the pages `ps`, fetched in this
order, when the cumulative count before them is `fetched`. -/
def progressOf (initOffset : Int) : Int → List TravisBuildResponse → List Progress
  | _, [] => []
  | fetched, p :: ps =>
    let fetched := wrapInt (fetched + p.Builds.length)
    { fetched := fetched, total := wrapInt (p.Pagination.Count - initOffset) }
      :: progressOf initOffset fetched ps

/-- Whether a run ended by a panic. -/
def Run.isPanicked {σ : Type} : Run σ → Bool
  | .panicked _ _ => true
  | _ => false

/-- Whether a run ended by the loop's `break`. -/
def Run.isDone {σ : Type} : Run σ → Bool
  | .done _ => true
  | _ => false

/-- What a run `r` of the loop, started in state `s` with loop variables
`fetched` and `off` and budget `fuel`, has done when `ps` are the pages it
fetched: the history grew by exactly these pages, their rows, their progress
lines and the calls that asked for them (one more call when the run ended in a
panic); every page but the last has a non-zero next offset, and the last has a
zero one exactly when the loop reached its `break`. -/
structure LoopTrace {σ : Type} (repo : String) (limit initOffset : Int) (fuel : Nat)
    (fetched off : Int) (s : State σ) (r : Run σ) (ps : List TravisBuildResponse) : Prop where
  pages : r.state.pages = s.pages ++ ps
  records : r.state.writer.records = s.writer.records ++ rowsOf ps
  flushes : r.state.writer.flushes = s.writer.flushes
  file : r.state.writer.file = s.writer.file
  calls : r.state.calls = s.calls ++
    ((off :: ps.map nextOf).take (ps.length + (if r.isPanicked then 1 else 0))).map
      (fun o => (repo, limit, o))
  stdout : r.state.stdout = s.stdout ++ progressOf initOffset fetched ps
  inner : ∀ p ∈ ps.dropLast, nextOf p ≠ 0
  last_done : r.isDone = true → ∃ p, ps.getLast? = some p ∧ nextOf p = 0
  last_other : r.isDone = false → ∀ p ∈ ps, nextOf p ≠ 0
  bound : ps.length + (if r.isPanicked then 1 else 0) ≤ fuel
  budget : r.isDone = false → r.isPanicked = false → ps.length = fuel

/-! ## Reading decimal numbers -/

/-- One step of reading a decimal number: the value so far, times ten, plus
the digit `c`; `none` when `c` is not a digit. -/
def parseStep (acc : Option Nat) (c : Char) : Option Nat :=
  match acc with
  | none => none
  | some n => if '0' ≤ c ∧ c ≤ '9' then some (n * 10 + (c.toNat - 48)) else none

/-- The value of a non-empty string of decimal digits; `none` for anything else. -/
def parseUint : List Char → Option Nat
  | [] => none
  | c :: cs => (c :: cs).foldl parseStep (some 0)

/-- Base-10 reading of an integer: an optional `'-'`, then at least one digit. -/
def parseInt (s : String) : Option Int :=
  match s.data with
  | [] => none
  | c :: cs =>
    if c = '-' then
      match parseUint cs with
      | some n => some (- Int.ofNat n)
      | none => none
    else
      match parseUint (c :: cs) with
      | some n => some (Int.ofNat n)
      | none => none

/-! ## Reading timestamps -/

/-- What an RFC 3339 timestamp without a fraction says: date, time of the day
and zone offset in seconds. -/
structure Stamp where
  year : Int
  month : Nat
  day : Nat
  hour : Nat
  minute : Nat
  second : Nat
  offset : Int
deriving DecidableEq, Repr

/-- The offset in seconds that `Z` or `±hh:mm` stands for. -/
def parseZone : List Char → Option Int
  | [z] => if z = 'Z' then some 0 else none
  | [sign, h1, h2, colon, m1, m2] =>
    if colon = ':' then
      match parseUint [h1, h2], parseUint [m1, m2] with
      | some h, some m =>
        if sign = '+' then some (Int.ofNat ((h * 60 + m) * 60))
        else if sign = '-' then some (- Int.ofNat ((h * 60 + m) * 60))
        else none
      | _, _ => none
    else none
  | _ => none

/-- Reading of `YYYY-MM-DDThh:mm:ssZ` and `YYYY-MM-DDThh:mm:ss±hh:mm`. -/
def parseRFC3339 (s : String) : Option Stamp :=
  match s.data with
  | y1 :: y2 :: y3 :: y4 :: c1 :: m1 :: m2 :: c2 :: d1 :: d2 :: c3 :: h1 :: h2 :: c4 ::
      n1 :: n2 :: c5 :: s1 :: s2 :: zone =>
    if c1 = '-' ∧ c2 = '-' ∧ c3 = 'T' ∧ c4 = ':' ∧ c5 = ':' then
      match parseUint [y1, y2, y3, y4], parseUint [m1, m2], parseUint [d1, d2],
          parseUint [h1, h2], parseUint [n1, n2], parseUint [s1, s2], parseZone zone with
      | some year, some month, some day, some hour, some minute, some second, some offset =>
        some { year := Int.ofNat year, month := month, day := day, hour := hour,
               minute := minute, second := second, offset := offset }
      | _, _, _, _, _, _, _ => none
    else none
  | _ => none

/-- What the RFC 3339 layout keeps of a time: the date and the time of the day
to the second, and the zone offset to the minute (rounded toward zero, as Go
divides). -/
def Time.stamp (t : Time) : Stamp :=
  { year := t.year, month := t.month, day := t.day, hour := t.hour, minute := t.minute,
    second := t.second, offset := Int.tdiv t.offset 60 * 60 }

/-- March 9, 2021, 14:05:07.25 at five and a half hours west of UTC. -/
def sampleTime : Time :=
  { year := 2021, month := 3, day := 9, hour := 14, minute := 5, second := 7, nsec := 250000000,
    offset := -19800, month_ok := by decide, day_ok := by decide, hour_ok := by decide,
    minute_ok := by decide, second_ok := by decide, nsec_ok := by decide }

/-! ## Providers used in examples -/

/-- A provider that answers the calls by the pages of a script, one by one,
whatever is asked; a script entry `none` is a transport error, and so is a call
past the end of the script.  A body is the page it decodes to and the decoder's
error, if any. -/
def scripted : Net (List (Option (TravisBuildResponse × Option String)))
    (TravisBuildResponse × Option String) where
  Do := fun _ w =>
    match w with
    | [] => (.error "connection refused", [])
    | none :: rest => (.error "connection refused", rest)
    | some body :: rest => (.ok body, rest)
  Decode := fun body => body

/-- A build with the given identifier, everything else zero. -/
def sampleBuild (id : Int) : TravisBuild :=
  { Type_ := "", Href := "", Representation := "", Permissions := ⟨false, false, false⟩,
    ID := id, Number := "", State := "", Duration := 0, EventType := "", PreviousState := "",
    PullRequestTitle := "", PullRequestNumber := none,
    StartedAt := Time.zero, FinishedAt := Time.zero,
    Repository := ⟨"", "", "", 0, "", ""⟩, Branch := ⟨"", "", "", ""⟩, Tag := none,
    Commit := ⟨"", "", 0, "", "", "", "", Time.zero⟩, Jobs := [], Stages := [],
    CreatedBy := ⟨"", "", "", 0, ""⟩ }

/-- A page with `n` builds, the given total count and next offset. -/
def samplePage (n : Nat) (count next : Int) : TravisBuildResponse :=
  { TravisBuildResponse.zero with
    Pagination := { TravisBuildResponse.zero.Pagination with
      Count := count, Next := { PageRef.zero with Offset := next } },
    Builds := (List.range n).map (fun i => sampleBuild (Int.ofNat i)) }

/-- The script of the two-page scenario: 100 builds with next offset 100, then
50 builds with next offset 0. -/
def twoPages : List (Option (TravisBuildResponse × Option String)) :=
  [some (samplePage 100 150 100, none), some (samplePage 50 150 0, none)]

/-- The script of the one-page scenario: 2 builds with next offset 0. -/
def onePage : List (Option (TravisBuildResponse × Option String)) :=
  [some (samplePage 2 2 0, none)]

/-- A script whose second page is not at the first page's offset plus the
limit: the first page reports next offset 250. -/
def jumpPages : List (Option (TravisBuildResponse × Option String)) :=
  [some (samplePage 100 300 250, none), some (samplePage 50 300 0, none)]

/-- The script of an empty repository: one page with no build, count 0 and
next offset 0. -/
def noBuilds : List (Option (TravisBuildResponse × Option String)) :=
  [some (samplePage 0 0 0, none)]

/-- A provider that answers every request with a page of 100 builds whose next
offset is 100: none of its pages has next offset 0. -/
def endless : Net Unit Unit where
  Do := fun _ _ => (.ok (), ())
  Decode := fun _ => (samplePage 100 1000 100, none)

/-- The script of a run whose second fetch fails in the transport: a page of 3
builds with next offset 100, then a transport error. -/
def brokenSecond : List (Option (TravisBuildResponse × Option String)) :=
  [some (samplePage 3 150 100, none), none]

/-- The script of a run whose first body fails to decode half-way: its
`@pagination` object is well-typed (count 150, next offset 100) and its `builds`
value is not an array, so that the decoder reports a type error after it has
stored the pagination; the second body is a last page of 50 builds. -/
def halfDecoded : List (Option (TravisBuildResponse × Option String)) :=
  [some (samplePage 0 150 100, some "json: cannot unmarshal string into Go struct field"),
   some (samplePage 50 150 0, none)]

/-- The script of a run whose second body is not JSON at all: the decoder fails
before it stores anything, and the destination keeps its zero value. -/
def undecodableSecond : List (Option (TravisBuildResponse × Option String)) :=
  [some (samplePage 3 150 100, none),
   some (TravisBuildResponse.zero, some "invalid character looking for beginning of value")]

/-- The script of a repository of 150 builds asked past its end: an empty page
with count 150 and next offset 0. -/
def pastEnd : List (Option (TravisBuildResponse × Option String)) :=
  [some (samplePage 0 150 0, none)]

/-- The pages `ps`, fetched in this order starting at offset `off`, do not hold
more builds than the pagination accounts for: a page fetched at offset `o` that
reports a next offset `n ≠ 0` holds at most `n - o` builds, and a page that
reports next offset 0 holds at most `Count - o` builds. -/
def consistent : Int → List TravisBuildResponse → Prop
  | _, [] => True
  | off, p :: ps =>
    (p.Builds.length : Int) ≤
        (if nextOf p = 0 then p.Pagination.Count - off else nextOf p - off) ∧
      consistent (nextOf p) ps

/-- A script whose next offsets grow by 50: three pages of 50 builds out of
150, reporting next offsets 50, 100 and 0. -/
def strideFifty : List (Option (TravisBuildResponse × Option String)) :=
  [some (samplePage 50 150 50, none), some (samplePage 50 150 100, none),
   some (samplePage 50 150 0, none)]

/-- A provider that answers by the URL asked: the page the table gives for it,
and a transport error for a URL that is not in the table.  A body is the page
it decodes to. -/
def tabled (table : List (String × TravisBuildResponse)) : Net Unit TravisBuildResponse where
  Do := fun req _ =>
    match table.lookup req.URL.String with
    | some page => (.ok page, ())
    | none => (.error "not found", ())
  Decode := fun page => (page, none)

/-- The pages of a repository of 250 builds, by URL, for page size 100: offsets
0 and 100 give full pages with next offsets 100 and 200, offset 200 gives the
last 50 builds and next offset 0. -/
def repo250 : List (String × TravisBuildResponse) :=
  [(buildsURL RepoId 100 0, samplePage 100 250 100),
   (buildsURL RepoId 100 100, samplePage 100 250 200),
   (buildsURL RepoId 100 200, samplePage 50 250 0)]

/-! ## Decimal rendering -/

section Decimal

theorem parseUint_cons (c : Char) (cs : List Char) :
    parseUint (c :: cs) = (c :: cs).foldl parseStep (some 0) := rfl

theorem digitChar_spec (d : Nat) (h : d < 10) :
    '0' ≤ digitChar d ∧ digitChar d ≤ '9' ∧ (digitChar d).toNat - 48 = d ∧
      digitChar d ≠ '-' ∧ (digitChar d = '0' → d = 0) := by
  interval_cases d <;> decide

theorem parseStep_digitChar (n d : Nat) (h : d < 10) :
    parseStep (some n) (digitChar d) = some (n * 10 + d) := by
  obtain ⟨h0, h9, hv, -, -⟩ := digitChar_spec d h
  simp [parseStep, h0, h9, hv]

theorem formatBits_foldl (fuel : Nat) :
    ∀ (u : Nat) (acc : List Char), u < fuel →
      (formatBits fuel u acc).foldl parseStep (some 0) = acc.foldl parseStep (some u) := by
  induction fuel with
  | zero => intro u acc h; omega
  | succ fuel ih =>
    intro u acc h
    unfold formatBits
    split
    · rename_i hu
      simp [List.foldl_cons, parseStep_digitChar 0 u hu]
    · rename_i hu
      rw [ih (u / 10) _ (by omega)]
      simp only [List.foldl_cons]
      rw [parseStep_digitChar _ _ (Nat.mod_lt _ (by decide))]
      congr 2
      omega

theorem formatBits_shape (fuel : Nat) :
    ∀ (u : Nat) (acc : List Char), u < fuel →
      ∃ ds : List Char, formatBits fuel u acc = ds ++ acc ∧ ds ≠ [] ∧
        (∀ c ∈ ds, '0' ≤ c ∧ c ≤ '9') ∧ (ds.head? = some '0' → u = 0) := by
  induction fuel with
  | zero => intro u acc h; omega
  | succ fuel ih =>
    intro u acc h
    unfold formatBits
    split
    · rename_i hu
      obtain ⟨h0, h9, -, -, hz⟩ := digitChar_spec u hu
      refine ⟨[digitChar u], rfl, by simp, ?_, ?_⟩
      · intro c hc
        simp only [List.mem_singleton] at hc
        subst hc
        exact ⟨h0, h9⟩
      · intro hh
        simp only [List.head?_cons, Option.some.injEq] at hh
        exact hz hh
    · rename_i hu
      obtain ⟨ds, hds, hne, hdig, hz⟩ := ih (u / 10) (digitChar (u % 10) :: acc) (by omega)
      obtain ⟨h0, h9, -, -, -⟩ := digitChar_spec (u % 10) (Nat.mod_lt _ (by decide))
      refine ⟨ds ++ [digitChar (u % 10)], by simp [hds], by simp, ?_, ?_⟩
      · intro c hc
        rcases List.mem_append.mp hc with hc | hc
        · exact hdig c hc
        · simp only [List.mem_singleton] at hc
          subst hc
          exact ⟨h0, h9⟩
      · intro hh
        cases ds with
        | nil => exact absurd rfl hne
        | cons d ds =>
          simp only [List.cons_append, List.head?_cons] at hh hz
          have := hz hh
          omega

theorem formatUint_shape (u : Nat) :
    formatUint u ≠ [] ∧ (∀ c ∈ formatUint u, '0' ≤ c ∧ c ≤ '9') ∧
      ((formatUint u).head? = some '0' → formatUint u = ['0']) := by
  obtain ⟨ds, hds, hne, hdig, hz⟩ := formatBits_shape (u + 1) u [] (by omega)
  have e : formatUint u = ds := by simp [formatUint, hds]
  rw [e]
  refine ⟨hne, hdig, ?_⟩
  intro hh
  have hu := hz hh
  subst hu
  rw [← e]
  rfl

theorem parseUint_formatUint (u : Nat) : parseUint (formatUint u) = some u := by
  have hne := (formatUint_shape u).1
  have h := formatBits_foldl (u + 1) u [] (by omega)
  cases hd : formatUint u with
  | nil => exact absurd hd hne
  | cons c cs =>
    rw [parseUint_cons, ← hd]
    simpa [formatUint] using h

theorem parseInt_FormatInt (n : Int) : parseInt (FormatInt n) = some n := by
  unfold parseInt FormatInt formatIntChars
  by_cases hn : n < 0
  · simp only [hn, if_true]
    simp only [parseUint_formatUint, Option.some.injEq, if_true, Int.ofNat_eq_coe]
    rw [Int.ofNat_natAbs_of_nonpos (le_of_lt hn), neg_neg]
  · simp only [hn, if_false]
    obtain ⟨hne, hdig, -⟩ := formatUint_shape n.natAbs
    cases hd : formatUint n.natAbs with
    | nil => exact absurd hd hne
    | cons c cs =>
      have hc : c ≠ '-' := by
        have := hdig c (by simp [hd])
        intro hcc
        subst hcc
        exact absurd this.1 (by decide)
      simp only [hc, if_false]
      rw [← hd, parseUint_formatUint]
      simp only [Option.some.injEq, Int.ofNat_eq_coe]
      exact Int.natAbs_of_nonneg (not_lt.mp hn)

theorem formatBits_fuel (u : Nat) :
    ∀ (f1 f2 : Nat) (acc : List Char), u < f1 → u < f2 →
      formatBits f1 u acc = formatBits f2 u [] ++ acc := by
  induction u using Nat.strong_induction_on with
  | _ u ih =>
    intro f1 f2 acc h1 h2
    obtain ⟨k, rfl⟩ : ∃ k, f1 = k + 1 := ⟨f1 - 1, by omega⟩
    obtain ⟨j, rfl⟩ : ∃ j, f2 = j + 1 := ⟨f2 - 1, by omega⟩
    unfold formatBits
    by_cases hu : u < 10
    · simp [hu]
    · simp only [hu, if_false]
      rw [ih (u / 10) (by omega) k j _ (by omega) (by omega),
        ih (u / 10) (by omega) j j [digitChar (u % 10)] (by omega) (by omega)]
      simp

theorem formatUint_lt_ten (u : Nat) (h : u < 10) : formatUint u = [digitChar u] := by
  simp [formatUint, formatBits, h]

theorem formatUint_ge_ten (u : Nat) (h : 10 ≤ u) :
    formatUint u = formatUint (u / 10) ++ [digitChar (u % 10)] := by
  have hu : ¬ u < 10 := by omega
  unfold formatUint
  rw [formatBits, if_neg hu]
  exact formatBits_fuel (u / 10) u (u / 10 + 1) _ (by omega) (by omega)

theorem appendInt_two (n : Nat) (h : n < 100) :
    appendInt (n : Int) 2 = [digitChar (n / 10), digitChar (n % 10)] := by
  have hneg : ¬ ((n : Int) < 0) := by omega
  unfold appendInt
  simp only [hneg, if_false, Int.natAbs_ofNat, List.nil_append]
  by_cases h10 : n < 10
  · rw [formatUint_lt_ten n h10]
    have e1 : n / 10 = 0 := by omega
    have e2 : n % 10 = n := by omega
    rw [e1, e2]
    rfl
  · rw [formatUint_ge_ten n (by omega), formatUint_lt_ten (n / 10) (by omega)]
    rfl

theorem appendInt_four (n : Nat) (h : n < 10000) :
    appendInt (n : Int) 4 =
      [digitChar (n / 1000), digitChar (n / 100 % 10), digitChar (n / 10 % 10),
        digitChar (n % 10)] := by
  have hneg : ¬ ((n : Int) < 0) := by omega
  unfold appendInt
  simp only [hneg, if_false, Int.natAbs_ofNat, List.nil_append]
  by_cases h10 : n < 10
  · rw [formatUint_lt_ten n h10]
    have e1 : n / 1000 = 0 := by omega
    have e2 : n / 100 % 10 = 0 := by omega
    have e3 : n / 10 % 10 = 0 := by omega
    have e4 : n % 10 = n := by omega
    rw [e1, e2, e3, e4]
    rfl
  · by_cases h100 : n < 100
    · rw [formatUint_ge_ten n (by omega), formatUint_lt_ten (n / 10) (by omega)]
      have e1 : n / 1000 = 0 := by omega
      have e2 : n / 100 % 10 = 0 := by omega
      have e3 : n / 10 % 10 = n / 10 := by omega
      rw [e1, e2, e3]
      rfl
    · by_cases h1000 : n < 1000
      · rw [formatUint_ge_ten n (by omega), formatUint_ge_ten (n / 10) (by omega),
          formatUint_lt_ten (n / 10 / 10) (by omega)]
        have e1 : n / 1000 = 0 := by omega
        have e2 : n / 100 % 10 = n / 10 / 10 := by omega
        rw [e1, e2]
        rfl
      · rw [formatUint_ge_ten n (by omega), formatUint_ge_ten (n / 10) (by omega),
          formatUint_ge_ten (n / 10 / 10) (by omega),
          formatUint_lt_ten (n / 10 / 10 / 10) (by omega)]
        have e1 : n / 1000 = n / 10 / 10 / 10 := by omega
        have e2 : n / 100 % 10 = n / 10 / 10 % 10 := by omega
        rw [e1, e2]
        rfl

theorem parseUint_two (a b : Nat) (ha : a < 10) (hb : b < 10) :
    parseUint [digitChar a, digitChar b] = some (a * 10 + b) := by
  simp [parseUint, List.foldl, parseStep_digitChar _ _ ha, parseStep_digitChar _ _ hb]

theorem parseUint_four (a b c d : Nat) (ha : a < 10) (hb : b < 10) (hc : c < 10) (hd : d < 10) :
    parseUint [digitChar a, digitChar b, digitChar c, digitChar d] =
      some (((a * 10 + b) * 10 + c) * 10 + d) := by
  simp [parseUint, List.foldl, parseStep_digitChar _ _ ha, parseStep_digitChar _ _ hb,
    parseStep_digitChar _ _ hc, parseStep_digitChar _ _ hd]

/-- The fixed-width part of the rendering. -/
theorem FormatRFC3339_data (t : Time) :
    t.FormatRFC3339.data =
      appendInt t.year 4 ++
        ['-', digitChar (t.month / 10), digitChar (t.month % 10),
         '-', digitChar (t.day / 10), digitChar (t.day % 10),
         'T', digitChar (t.hour / 10), digitChar (t.hour % 10),
         ':', digitChar (t.minute / 10), digitChar (t.minute % 10),
         ':', digitChar (t.second / 10), digitChar (t.second % 10)] ++ formatZone t.offset := by
  have hm := t.month_ok
  have hd := t.day_ok
  have hdi : daysIn t.year t.month ≤ 31 := by
    unfold daysIn; split <;> split <;> omega
  unfold Time.FormatRFC3339
  rw [appendInt_two t.month (by omega), appendInt_two t.day (by omega),
    appendInt_two t.hour (by have := t.hour_ok; omega),
    appendInt_two t.minute (by have := t.minute_ok; omega),
    appendInt_two t.second (by have := t.second_ok; omega)]
  simp

theorem formatZone_spec (offset : Int) (h : offset.natAbs < 86400) :
    parseZone (formatZone offset) = some (Int.tdiv offset 60 * 60) ∧
    (formatZone offset).length = (if offset = 0 then 1 else 6) := by
  unfold formatZone
  by_cases h0 : offset = 0
  · subst h0; simp [parseZone]
  · simp only [h0, if_false]
    have hq : (Int.tdiv offset 60).natAbs = offset.natAbs / 60 := by
      rw [Int.natAbs_tdiv]; rfl
    have hz : (Int.tdiv offset 60).natAbs < 1440 := by
      rw [hq]; omega
    rw [appendInt_two ((Int.tdiv offset 60).natAbs / 60) (by omega),
      appendInt_two ((Int.tdiv offset 60).natAbs % 60) (by omega)]
    have d1 : (Int.tdiv offset 60).natAbs / 60 / 10 < 10 := by omega
    have d2 : (Int.tdiv offset 60).natAbs / 60 % 10 < 10 := by omega
    have d3 : (Int.tdiv offset 60).natAbs % 60 / 10 < 10 := by omega
    have d4 : (Int.tdiv offset 60).natAbs % 60 % 10 < 10 := by omega
    refine ⟨?_, by simp⟩
    simp only [List.cons_append, List.nil_append, parseZone, if_true,
      parseUint_two _ _ d1 d2, parseUint_two _ _ d3 d4]
    by_cases hneg : Int.tdiv offset 60 < 0
    · have hab : ((Int.tdiv offset 60).natAbs : Int) = - Int.tdiv offset 60 :=
        Int.ofNat_natAbs_of_nonpos (le_of_lt hneg)
      generalize (Int.tdiv offset 60).natAbs = z at *
      simp only [hneg, if_true, show ('-' : Char) ≠ '+' by decide, if_false]
      simp only [Option.some.injEq, Int.ofNat_eq_coe]
      push_cast
      omega
    · have hab : ((Int.tdiv offset 60).natAbs : Int) = Int.tdiv offset 60 :=
        Int.natAbs_of_nonneg (not_lt.mp hneg)
      generalize (Int.tdiv offset 60).natAbs = z at *
      simp only [hneg, if_false, if_true]
      simp only [Option.some.injEq, Int.ofNat_eq_coe]
      push_cast
      omega

theorem parseRFC3339_FormatRFC3339 (t : Time) (h0 : 0 ≤ t.year) (h1 : t.year ≤ 9999)
    (hz : t.offset.natAbs < 86400) :
    parseRFC3339 t.FormatRFC3339 = some t.stamp ∧
    t.FormatRFC3339.length = (if t.offset = 0 then 20 else 25) := by
  obtain ⟨n, hn⟩ : ∃ n : Nat, t.year = (n : Int) := ⟨t.year.toNat, (Int.toNat_of_nonneg h0).symm⟩
  have hn4 : n < 10000 := by omega
  have hm := t.month_ok
  have hd := t.day_ok
  have hdi : daysIn t.year t.month ≤ 31 := by
    unfold daysIn; split <;> split <;> omega
  have hh := t.hour_ok
  have hmi := t.minute_ok
  have hs := t.second_ok
  obtain ⟨hpz, hlz⟩ := formatZone_spec t.offset hz
  have hdata := FormatRFC3339_data t
  rw [hn, appendInt_four n hn4] at hdata
  constructor
  · unfold parseRFC3339
    rw [hdata]
    simp only [List.cons_append, List.nil_append, and_self, if_true, hpz,
      parseUint_two _ _ (show t.month / 10 < 10 by omega) (Nat.mod_lt _ (by decide)),
      parseUint_two _ _ (show t.day / 10 < 10 by omega) (Nat.mod_lt _ (by decide)),
      parseUint_two _ _ (show t.hour / 10 < 10 by omega) (Nat.mod_lt _ (by decide)),
      parseUint_two _ _ (show t.minute / 10 < 10 by omega) (Nat.mod_lt _ (by decide)),
      parseUint_two _ _ (show t.second / 10 < 10 by omega) (Nat.mod_lt _ (by decide)),
      parseUint_four _ _ _ _ (show n / 1000 < 10 by omega) (Nat.mod_lt _ (by decide))
        (Nat.mod_lt _ (by decide)) (Nat.mod_lt _ (by decide))]
    simp only [Time.stamp, Option.some.injEq, Stamp.mk.injEq, Int.ofNat_eq_coe, hn]
    refine ⟨?_, by omega, by omega, by omega, by omega, by omega, trivial⟩
    norm_cast
    omega
  · rw [String.length, hdata]
    simp only [List.length_append, List.length_cons, List.length_nil, hlz]
    split <;> rfl

theorem formatUint_digits (u : Nat) : ∀ c ∈ formatUint u, ∃ d, d < 10 ∧ c = digitChar d := by
  induction u using Nat.strong_induction_on with
  | _ u ih =>
    intro c hc
    by_cases hu : u < 10
    · rw [formatUint_lt_ten u hu] at hc
      exact ⟨u, hu, by simpa using hc⟩
    · rw [formatUint_ge_ten u (by omega)] at hc
      rcases List.mem_append.mp hc with hc | hc
      · exact ih (u / 10) (by omega) c hc
      · exact ⟨u % 10, Nat.mod_lt _ (by decide), by simpa using hc⟩

theorem formatZone_eq (offset : Int) (h : offset.natAbs < 86400) :
    formatZone offset =
      if offset = 0 then ['Z']
      else [if Int.tdiv offset 60 < 0 then '-' else '+',
        digitChar ((Int.tdiv offset 60).natAbs / 60 / 10),
        digitChar ((Int.tdiv offset 60).natAbs / 60 % 10), ':',
        digitChar ((Int.tdiv offset 60).natAbs % 60 / 10),
        digitChar ((Int.tdiv offset 60).natAbs % 60 % 10)] := by
  unfold formatZone
  by_cases h0 : offset = 0
  · simp [h0]
  · simp only [h0, if_false]
    have hq : (Int.tdiv offset 60).natAbs = offset.natAbs / 60 := by
      rw [Int.natAbs_tdiv]; rfl
    have hz : (Int.tdiv offset 60).natAbs < 1440 := by
      rw [hq]; omega
    rw [appendInt_two ((Int.tdiv offset 60).natAbs / 60) (by omega),
      appendInt_two ((Int.tdiv offset 60).natAbs % 60) (by omega)]
    rfl

end Decimal

/-! ## The writer -/

theorem writeToCSV_records (builds : List TravisBuild) :
    ∀ w : Writer, (writeToCSV builds w).records = w.records ++ builds.map line := by
  induction builds with
  | nil => intro w; simp [writeToCSV]
  | cons b bs ih => intro w; simp [writeToCSV, ih, Writer.Write]

theorem writeToCSV_flushes (builds : List TravisBuild) :
    ∀ w : Writer, (writeToCSV builds w).flushes = w.flushes := by
  induction builds with
  | nil => intro w; simp [writeToCSV]
  | cons b bs ih => intro w; simp [writeToCSV, ih, Writer.Write]

theorem writeToCSV_file (builds : List TravisBuild) :
    ∀ w : Writer, (writeToCSV builds w).file = w.file := by
  induction builds with
  | nil => intro w; simp [writeToCSV]
  | cons b bs ih => intro w; simp [writeToCSV, ih, Writer.Write]

/-- C4: the row `writeToCSV` appends for a build has exactly 12 fields, which
match the header columns position by position: decimal ID, Number, State,
EventType, Repository.Name, Branch.Name, PullRequestTitle, RFC 3339 StartedAt
and FinishedAt, decimal Duration, decimal CreatedBy.ID, CreatedBy.Login; the
rows of several builds are appended in order.  The decimal rendering of `n`
reads back as `n` and consists of a `'-'` exactly when `n` is negative,
followed by a non-empty string of digits with no leading zero (other than the
single digit of zero).  The rendering of a time `t` is its year (at least 4
digits), `-`, 2 digits of month, `-`, 2 digits of day, `T`, 2 digits each of
hour, minute and second separated by `:`, and the zone; for a time in the range
of RFC 3339 (year 0 to 9999, offset within a day) it is a `date-time` of RFC
3339 with a fixed offset: 4 digits of year, zone `Z` for offset 0 and else a
sign with 2 digits each of hours and minutes, 20 or 25 characters in all, and
it reads back as the date, the time of the day to the second and the offset to
the minute of `t`.  For instance 14:05:07.25 on March 9, 2021, five and a half
hours west of UTC, is written `2021-03-09T14:05:07-05:30`. -/
theorem writeToCSV_row_fields (b : TravisBuild) (builds : List TravisBuild) (w : Writer) :
    (writeToCSV [b] w).records = w.records ++ [line b] ∧
    (writeToCSV builds w).records = w.records ++ builds.map line ∧
    (line b).length = 12 ∧
    List.zip headers (line b) =
      [("ID", FormatInt b.ID), ("Number", b.Number), ("State", b.State),
       ("EventType", b.EventType), ("RepositoryName", b.Repository.Name),
       ("BranchName", b.Branch.Name), ("PullRequestTitle", b.PullRequestTitle),
       ("StartedAt", b.StartedAt.FormatRFC3339), ("FinishedAt", b.FinishedAt.FormatRFC3339),
       ("Duration", FormatInt b.Duration), ("CreatedByID", FormatInt b.CreatedBy.ID),
       ("CreatedByLogin", b.CreatedBy.Login)] ∧
    (∀ n : Int, parseInt (FormatInt n) = some n ∧
      ∃ ds : List Char, (FormatInt n).data = (if n < 0 then ['-'] else []) ++ ds ∧ ds ≠ [] ∧
        (∀ c ∈ ds, '0' ≤ c ∧ c ≤ '9') ∧ (ds.head? = some '0' → ds = ['0'])) ∧
    (∀ t : Time,
      t.FormatRFC3339.data =
        appendInt t.year 4 ++
          ['-', digitChar (t.month / 10), digitChar (t.month % 10),
           '-', digitChar (t.day / 10), digitChar (t.day % 10),
           'T', digitChar (t.hour / 10), digitChar (t.hour % 10),
           ':', digitChar (t.minute / 10), digitChar (t.minute % 10),
           ':', digitChar (t.second / 10), digitChar (t.second % 10)] ++ formatZone t.offset ∧
      4 ≤ (appendInt t.year 4).length) ∧
    (∀ t : Time, 0 ≤ t.year → t.year ≤ 9999 → t.offset.natAbs < 86400 →
      appendInt t.year 4 =
        [digitChar (t.year.toNat / 1000), digitChar (t.year.toNat / 100 % 10),
         digitChar (t.year.toNat / 10 % 10), digitChar (t.year.toNat % 10)] ∧
      formatZone t.offset =
        (if t.offset = 0 then ['Z']
         else [if Int.tdiv t.offset 60 < 0 then '-' else '+',
           digitChar ((Int.tdiv t.offset 60).natAbs / 60 / 10),
           digitChar ((Int.tdiv t.offset 60).natAbs / 60 % 10), ':',
           digitChar ((Int.tdiv t.offset 60).natAbs % 60 / 10),
           digitChar ((Int.tdiv t.offset 60).natAbs % 60 % 10)]) ∧
      t.FormatRFC3339.length = (if t.offset = 0 then 20 else 25) ∧
      parseRFC3339 t.FormatRFC3339 =
        some { year := t.year, month := t.month, day := t.day, hour := t.hour,
               minute := t.minute, second := t.second,
               offset := Int.tdiv t.offset 60 * 60 }) ∧
    (sampleTime.FormatRFC3339 = "2021-03-09T14:05:07-05:30" ∧
      Time.zero.FormatRFC3339 = "0001-01-01T00:00:00Z" ∧
      parseRFC3339 "2021-03-09T14:05:07-05:30" =
        some { year := 2021, month := 3, day := 9, hour := 14, minute := 5, second := 7,
               offset := -19800 }) := by
  refine ⟨by simp [writeToCSV_records], writeToCSV_records builds w, rfl, rfl, ?_, ?_, ?_,
    by decide, by decide, by decide⟩
  · intro n
    refine ⟨parseInt_FormatInt n, formatUint n.natAbs, ?_, (formatUint_shape _).1,
      (formatUint_shape _).2.1, (formatUint_shape _).2.2⟩
    unfold FormatInt formatIntChars
    split <;> simp
  · intro t
    refine ⟨FormatRFC3339_data t, ?_⟩
    unfold appendInt
    simp only [List.length_append, List.length_replicate]
    omega
  · intro t h0 h1 hz
    obtain ⟨hp, hl⟩ := parseRFC3339_FormatRFC3339 t h0 h1 hz
    refine ⟨?_, formatZone_eq t.offset hz, hl, hp⟩
    have e := appendInt_four t.year.toNat (by omega)
    rw [Int.toNat_of_nonneg h0] at e
    exact e

/-! ## Parsing the URL -/

section URLs

theorem cut_of_not_mem (sep : Char) (l : List Char) (h : sep ∉ l) : cut sep l = (l, none) := by
  induction l with
  | nil => rfl
  | cons c cs ih =>
    have hc : c ≠ sep := fun e => h (by simp [e])
    have hcs : sep ∉ cs := fun e => h (by simp [e])
    simp [cut, hc, ih hcs]

theorem cut_append (sep : Char) (l1 l2 : List Char) (h : sep ∉ l1) :
    cut sep (l1 ++ sep :: l2) = (l1, some l2) := by
  induction l1 with
  | nil => simp [cut]
  | cons c cs ih =>
    have hc : c ≠ sep := fun e => h (by simp [e])
    have hcs : sep ∉ cs := fun e => h (by simp [e])
    simp [cut, hc, ih hcs]

theorem validEscapes_append (l1 l2 : List Char) (h : validEscapes l1 = true) :
    validEscapes (l1 ++ l2) = validEscapes l2 := by
  induction l1 using validEscapes.induct with
  | case1 => rfl
  | case2 a b rest ih =>
    simp only [validEscapes, if_true, Bool.and_eq_true] at h
    simp [validEscapes, h.1.1, h.1.2, ih h.2]
  | case3 cs hcs =>
    simp [validEscapes] at h
  | case4 c cs hc ih =>
    have e : ∀ l : List Char, validEscapes (c :: l) = validEscapes l := by
      intro l
      rcases l with _ | ⟨a, _ | ⟨b, rest⟩⟩ <;> simp [validEscapes, hc]
    rw [List.cons_append, e]
    exact ih (e cs ▸ h)


theorem all_imp {P Q : Char → Bool} (l : List Char) (h : ∀ x, P x = true → Q x = true)
    (hl : l.all P = true) : l.all Q = true := by
  rw [List.all_eq_true] at hl ⊢
  exact fun x hx => h x (hl x hx)

theorem hostChar_spec (x : Char) (h : hostChar x = true) :
    plainChar x = true ∧ x ≠ '?' ∧ x ≠ '/' := by
  unfold hostChar at h
  simp only [Bool.or_eq_true, decide_eq_true_eq] at h
  rcases h with (h | h) | h
  · refine ⟨?_, ?_, ?_⟩
    · simp only [isAlnumCode, Bool.or_eq_true, Bool.and_eq_true, decide_eq_true_eq] at h
      have h1 : x ≠ '#' := by rintro rfl; revert h; decide
      simp only [plainChar, isCTL, Bool.and_eq_true, bne_iff_ne, ne_eq, h1, not_false_eq_true,
        Bool.not_eq_true', Bool.or_eq_false_iff, decide_eq_false_iff_not, true_and]
      omega
    · rintro rfl; revert h; decide
    · rintro rfl; revert h; decide
  all_goals (subst h; decide)

theorem pathChar_spec (x : Char) (h : pathChar x = true) :
    plainChar x = true ∧ x ≠ '?' ∧ (x.toNat = 37 ∨ shouldEscapePath x.toNat = false) := by
  simp only [pathChar, Bool.and_eq_true, bne_iff_ne, ne_eq, Bool.not_eq_true', Bool.or_eq_true,
    decide_eq_true_eq] at h
  obtain ⟨⟨⟨h1, h2⟩, h3⟩, h4⟩ := h
  refine ⟨?_, h2, h4⟩
  simp [plainChar, h1, h3]

theorem parseURL_plain (host p q : List Char) (c : Char)
    (hne : host ≠ []) (hhost : host.all hostChar = true)
    (hp : p.all pathChar = true) (hpe : validEscapes p = true)
    (hq : (q ++ [c]).all plainChar = true) (hc : c ≠ '?') :
    parseURL (String.mk ('h' :: 't' :: 't' :: 'p' :: 's' :: ':' :: '/' :: '/' ::
        (host ++ '/' :: (p ++ '?' :: (q ++ [c]))))) =
      .ok { Scheme := "https", Host := String.mk host, EscapedPath := String.mk ('/' :: p),
            ForceQuery := false, RawQuery := String.mk (q ++ [c]), EscapedFragment := "" } := by
  have hall : ('h' :: 't' :: 't' :: 'p' :: 's' :: ':' :: '/' :: '/' ::
        (host ++ '/' :: (p ++ '?' :: (q ++ [c])))).all plainChar = true := by
    have h1 : host.all plainChar = true := all_imp host (fun x hx => (hostChar_spec x hx).1) hhost
    have h2 : p.all plainChar = true := all_imp p (fun x hx => (pathChar_spec x hx).1) hp
    have l1 : plainChar 'h' = true := by decide
    have l2 : plainChar 't' = true := by decide
    have l3 : plainChar 'p' = true := by decide
    have l4 : plainChar 's' = true := by decide
    have l5 : plainChar ':' = true := by decide
    have l6 : plainChar '/' = true := by decide
    have l7 : plainChar '?' = true := by decide
    simp only [List.all_cons, List.all_append, Bool.and_eq_true, List.all_nil] at hq ⊢
    exact ⟨l1, l2, l2, l3, l4, l5, l6, l6, h1, l6, h2, l7, hq⟩
  have hsharp : '#' ∉ ('h' :: 't' :: 't' :: 'p' :: 's' :: ':' :: '/' :: '/' ::
        (host ++ '/' :: (p ++ '?' :: (q ++ [c])))) := by
    intro hmem
    have := List.all_eq_true.mp hall _ hmem
    revert this
    decide
  have hctl : ('h' :: 't' :: 't' :: 'p' :: 's' :: ':' :: '/' :: '/' ::
        (host ++ '/' :: (p ++ '?' :: (q ++ [c])))).any isCTL = false := by
    rw [List.any_eq_false]
    intro x hx
    have := List.all_eq_true.mp hall x hx
    simp only [plainChar, Bool.and_eq_true, Bool.not_eq_true'] at this
    simp [this.2]
  have hsch : getScheme ('h' :: 't' :: 't' :: 'p' :: 's' :: ':' :: '/' :: '/' ::
        (host ++ '/' :: (p ++ '?' :: (q ++ [c]))))  []
        ('h' :: 't' :: 't' :: 'p' :: 's' :: ':' :: '/' :: '/' ::
        (host ++ '/' :: (p ++ '?' :: (q ++ [c])))) =
      .ok (['h', 't', 't', 'p', 's'], '/' :: '/' :: (host ++ '/' :: (p ++ '?' :: (q ++ [c])))) := by
    rfl
  have hlast : ('/' :: '/' :: (host ++ '/' :: (p ++ '?' :: (q ++ [c])))).getLast? = some c := by
    have : '/' :: '/' :: (host ++ '/' :: (p ++ '?' :: (q ++ [c]))) =
        ('/' :: '/' :: (host ++ '/' :: (p ++ '?' :: q))) ++ [c] := by simp
    rw [this, List.getLast?_append]
    rfl
  have hcutq : cut '?' ('/' :: '/' :: (host ++ '/' :: (p ++ '?' :: (q ++ [c])))) =
      ('/' :: '/' :: (host ++ '/' :: p), some (q ++ [c])) := by
    have : '/' :: '/' :: (host ++ '/' :: (p ++ '?' :: (q ++ [c]))) =
        ('/' :: '/' :: (host ++ '/' :: p)) ++ '?' :: (q ++ [c]) := by simp
    rw [this]
    apply cut_append
    simp only [List.mem_cons, List.mem_append, not_or]
    refine ⟨by decide, by decide, ?_, by decide, ?_⟩
    · intro hm
      exact (hostChar_spec _ (List.all_eq_true.mp hhost _ hm)).2.1 rfl
    · intro hm
      exact (pathChar_spec _ (List.all_eq_true.mp hp _ hm)).2.1 rfl
  have hcuts : cut '/' (host ++ '/' :: p) = (host, some p) := by
    apply cut_append
    intro hm
    exact (hostChar_spec _ (List.all_eq_true.mp hhost _ hm)).2.2 rfl
  have hve : validEscapes ('/' :: p) = true := by
    have e : ∀ l : List Char, validEscapes ('/' :: l) = validEscapes l := by
      intro l
      rcases l with _ | ⟨a, _ | ⟨b, rest⟩⟩ <;> simp [validEscapes]
    rw [e, hpe]
  have hvenc : validEncoded shouldEscapePath ('/' :: p) = true := by
    unfold validEncoded
    rw [List.all_cons, Bool.and_eq_true]
    refine ⟨by decide, ?_⟩
    rw [List.all_eq_true]
    intro x hx
    rcases (pathChar_spec _ (List.all_eq_true.mp hp _ hx)).2.2 with h | h
    · simp [h]
    · simp [h]
  unfold parseURL
  simp only [cut_of_not_mem _ _ hsharp, hctl, hsch, hlast, hcutq, hcuts, hve, hvenc, escaped]
  have hhost2 : host.all (fun c => isAlnumCode c.toNat || decide (c = '-') || decide (c = '.'))
      = true := hhost
  have hforce : (decide (some c = some '?') &&
      decide (List.count '?' ('/' :: '/' :: (host ++ '/' :: (p ++ '?' :: (q ++ [c])))) = 1))
        = false := by
    simp [hc]
  simp only [hforce, Bool.false_eq_true, if_false, hcuts, hve, hvenc, hhost2, if_true,
    ne_eq, hne, not_false_eq_true, and_self, reduceCtorEq, Option.getD_some, Option.getD_none,
    validEscapes]
  rfl

theorem formatIntChars_plain (n : Int) : (formatIntChars n).all plainChar = true := by
  have key : ∀ d, d < 10 → plainChar (digitChar d) = true := by
    intro d hd
    interval_cases d <;> decide
  rw [List.all_eq_true]
  intro c h
  unfold formatIntChars at h
  split at h
  · rcases List.mem_cons.mp h with rfl | h
    · decide
    · obtain ⟨d, hd, rfl⟩ := formatUint_digits _ c h
      exact key d hd
  · obtain ⟨d, hd, rfl⟩ := formatUint_digits _ c h
    exact key d hd

theorem buildsURL_eq (repo : String) (limit offset : Int) :
    buildsURL repo limit offset =
      String.mk ('h' :: 't' :: 't' :: 'p' :: 's' :: ':' :: '/' :: '/' ::
        ("api.travis-ci.com".data ++ '/' :: (("repo/".data ++ repo.data ++ "/builds".data) ++
          '?' :: (("limit=".data ++ formatIntChars limit ++ "&offset=".data
            ++ formatIntChars offset ++ "&sort_by=started_at:des".data) ++ ['c'])))) := by
  apply String.ext
  simp [buildsURL, String.data_append, FormatInt]

/-- The URL of a URL-safe repository identifier parses to itself. -/
theorem parseURL_buildsURL (repo : String) (limit offset : Int) (h : urlSafe repo = true) :
    parseURL (buildsURL repo limit offset) = .ok (travisURL repo limit offset) := by
  simp only [urlSafe, Bool.and_eq_true] at h
  obtain ⟨hall, hesc⟩ := h
  rw [buildsURL_eq, parseURL_plain]
  · rw [Except.ok.injEq, travisURL, URL.mk.injEq]
    refine ⟨rfl, rfl, ?_, rfl, ?_, rfl⟩
    · apply String.ext
      simp [String.data_append]
    · apply String.ext
      simp [String.data_append, FormatInt]
  · decide
  · decide
  · simp only [List.all_append, Bool.and_eq_true]
    exact ⟨⟨by decide, hall⟩, by decide⟩
  · rw [List.append_assoc, validEscapes_append "repo/".data _ (by decide),
      validEscapes_append repo.data _ hesc]
    decide
  · simp only [List.all_append, Bool.and_eq_true]
    exact ⟨⟨⟨⟨⟨by decide, formatIntChars_plain limit⟩, by decide⟩,
      formatIntChars_plain offset⟩, by decide⟩, by decide⟩
  · decide

theorem travisURL_String (repo : String) (limit offset : Int) :
    (travisURL repo limit offset).String = buildsURL repo limit offset := by
  have hq : ("limit=" ++ FormatInt limit ++ "&offset=" ++ FormatInt offset
      ++ "&sort_by=started_at:desc") ≠ "" := by
    intro h
    have := congrArg String.data h
    simp [String.data_append] at this
  apply String.ext
  simp [URL.String, travisURL, buildsURL, hq, String.data_append]

theorem NewRequest_buildsURL (repo : String) (limit offset : Int) (h : urlSafe repo = true) :
    NewRequest "GET" (buildsURL repo limit offset) =
      .ok { Method := "GET", URL := travisURL repo limit offset, Header := [] } := by
  unfold NewRequest
  rw [parseURL_buildsURL repo limit offset h]
  rfl

theorem HeaderAdd_both (u : URL) :
    ((({ Method := "GET", URL := u, Header := [] } : Request).HeaderAdd "Travis-API-Version"
        "3").HeaderAdd "Authorization" ("token " ++ APIKey)) =
      { Method := "GET", URL := u,
        Header := [("Travis-Api-Version", "3"), ("Authorization", "token " ++ APIKey)] } := by
  have h1 : CanonicalMIMEHeaderKey "Travis-API-Version" = "Travis-Api-Version" := by decide
  have h2 : CanonicalMIMEHeaderKey "Authorization" = "Authorization" := by decide
  simp [Request.HeaderAdd, h1, h2]

/-- How `http.NewRequest` treats identifiers that are not safe in a URL path: a
space is escaped in the path, a `#` starts a fragment and leaves no query, a
`?` starts the query early (whose escapes are not checked), a broken escape in
the path and a control character are errors. -/
theorem NewRequest_examples :
    (NewRequest "GET" (buildsURL "a b" 100 0)).toOption.map (fun req => req.URL.String) =
      some "https://api.travis-ci.com/repo/a%20b/builds?limit=100&offset=0&sort_by=started_at:desc" ∧
    (NewRequest "GET" (buildsURL "a#" 100 0)).toOption.map
        (fun req => (req.URL.EscapedPath, req.URL.RawQuery, req.URL.EscapedFragment)) =
      some ("/repo/a", "", "/builds?limit=100&offset=0&sort_by=started_at:desc") ∧
    (NewRequest "GET" (buildsURL "a?%zz" 100 0)).toOption.map
        (fun req => (req.URL.EscapedPath, req.URL.RawQuery)) =
      some ("/repo/a", "%zz/builds?limit=100&offset=0&sort_by=started_at:desc") ∧
    NewRequest "GET" (buildsURL "%zz" 100 0) = .error "invalid URL escape" ∧
    NewRequest "GET" (buildsURL "a\nb" 100 0) =
      .error "net/url: invalid control character in URL" ∧
    NewRequest "" (buildsURL "1234" 100 0) =
      .ok { Method := "GET", URL := travisURL "1234" 100 0, Header := [] } ∧
    NewRequest "G T" (buildsURL "1234" 100 0) = .error "net/http: invalid method" := by
  refine ⟨by decide, by decide, by decide, by rfl, by rfl, by rfl, by rfl⟩

end URLs

/-! ## One fetch -/

section Fetch

variable {σ β : Type}

theorem getBuilds_of_request (net : Net σ β) (repo : String) (limit offset : Int) (s : State σ)
    (req : Request) (h : NewRequest "GET" (buildsURL repo limit offset) = .ok req) :
    getBuilds net repo limit offset s =
      match net.Do ((req.HeaderAdd "Travis-API-Version" "3").HeaderAdd "Authorization"
          ("token " ++ APIKey)) s.remote with
      | (.error err, remote) =>
        (.panic err,
          { s with
            calls := s.calls ++ [(repo, limit, offset)],
            remote := remote,
            sent := s.sent ++ [(req.HeaderAdd "Travis-API-Version" "3").HeaderAdd
              "Authorization" ("token " ++ APIKey)] })
      | (.ok body, remote) =>
        (.ok (net.Decode body).1,
          { s with
            calls := s.calls ++ [(repo, limit, offset)],
            remote := remote,
            sent := s.sent ++ [(req.HeaderAdd "Travis-API-Version" "3").HeaderAdd
              "Authorization" ("token " ++ APIKey)],
            logged := s.logged ++ (net.Decode body).2.toList,
            pages := s.pages ++ [(net.Decode body).1] }) := by
  unfold getBuilds
  simp only [h]
  rcases hd : net.Do _ s.remote with ⟨res, remote⟩
  cases res with
  | error err => rfl
  | ok body =>
    simp only
    rcases hdec : net.Decode body with ⟨resp, err⟩
    cases err <;> simp

theorem getBuilds_of_error (net : Net σ β) (repo : String) (limit offset : Int) (s : State σ)
    (err : String) (h : NewRequest "GET" (buildsURL repo limit offset) = .error err) :
    getBuilds net repo limit offset s =
      (.panic err, { s with calls := s.calls ++ [(repo, limit, offset)] }) := by
  unfold getBuilds
  simp only [h]

/-- A call of `getBuilds` for a URL-safe repository identifier. -/
theorem getBuilds_urlSafe (net : Net σ β) (repo : String) (limit offset : Int) (s : State σ)
    (h : urlSafe repo = true) :
    getBuilds net repo limit offset s =
      match net.Do (requestFor repo limit offset) s.remote with
      | (.error err, remote) =>
        (.panic err, { s with calls := s.calls ++ [(repo, limit, offset)], remote := remote,
                              sent := s.sent ++ [requestFor repo limit offset] })
      | (.ok body, remote) =>
        (.ok (net.Decode body).1,
          { s with calls := s.calls ++ [(repo, limit, offset)], remote := remote,
                   sent := s.sent ++ [requestFor repo limit offset],
                   logged := s.logged ++ (net.Decode body).2.toList,
                   pages := s.pages ++ [(net.Decode body).1] }) := by
  rw [getBuilds_of_request net repo limit offset s _ (NewRequest_buildsURL repo limit offset h),
    HeaderAdd_both]
  rfl

/-- A call of `getBuilds` for the repository identifier `RepoId` of the source. -/
theorem getBuilds_eq (net : Net σ β) (limit offset : Int) (s : State σ) :
    getBuilds net RepoId limit offset s =
      match net.Do (requestFor RepoId limit offset) s.remote with
      | (.error err, remote) =>
        (.panic err, { s with calls := s.calls ++ [(RepoId, limit, offset)], remote := remote,
                              sent := s.sent ++ [requestFor RepoId limit offset] })
      | (.ok body, remote) =>
        (.ok (net.Decode body).1,
          { s with calls := s.calls ++ [(RepoId, limit, offset)], remote := remote,
                   sent := s.sent ++ [requestFor RepoId limit offset],
                   logged := s.logged ++ (net.Decode body).2.toList,
                   pages := s.pages ++ [(net.Decode body).1] }) :=
  getBuilds_urlSafe net RepoId limit offset s (by decide)

theorem getBuilds_cases (net : Net σ β) (repo : String) (limit offset : Int) (s : State σ) :
    (∃ err s1, getBuilds net repo limit offset s = (.panic err, s1) ∧
      s1.calls = s.calls ++ [(repo, limit, offset)] ∧ s1.pages = s.pages ∧
      s1.writer = s.writer ∧ s1.stdout = s.stdout) ∨
    (∃ page s1, getBuilds net repo limit offset s = (.ok page, s1) ∧
      s1.calls = s.calls ++ [(repo, limit, offset)] ∧ s1.pages = s.pages ++ [page] ∧
      s1.writer = s.writer ∧ s1.stdout = s.stdout) := by
  cases hreq : NewRequest "GET" (buildsURL repo limit offset) with
  | error err =>
    rw [getBuilds_of_error net repo limit offset s err hreq]
    exact Or.inl ⟨_, _, rfl, rfl, rfl, rfl, rfl⟩
  | ok req =>
    rw [getBuilds_of_request net repo limit offset s req hreq]
    rcases hd : net.Do _ s.remote with ⟨res, remote⟩
    cases res with
    | error err => exact Or.inl ⟨_, _, rfl, rfl, rfl, rfl, rfl⟩
    | ok body => exact Or.inr ⟨_, _, rfl, rfl, rfl, rfl, rfl⟩

end Fetch

/-! ## The loop -/

section Loop

variable {σ β : Type}

theorem rowsOf_cons (p : TravisBuildResponse) (ps : List TravisBuildResponse) :
    rowsOf (p :: ps) = p.Builds.map line ++ rowsOf ps := by
  simp [rowsOf]

theorem processLoop_panic (net : Net σ β) (repo : String) (limit initOffset : Int) (fuel : Nat)
    (fetched off : Int) (s s1 : State σ) (err : String)
    (h : getBuilds net repo limit off s = (.panic err, s1)) :
    processLoop net repo limit initOffset (fuel + 1) fetched off s = .panicked err s1 := by
  simp only [processLoop, h]

theorem processLoop_ok (net : Net σ β) (repo : String) (limit initOffset : Int) (fuel : Nat)
    (fetched off : Int) (s s1 : State σ) (page : TravisBuildResponse)
    (h : getBuilds net repo limit off s = (.ok page, s1)) :
    processLoop net repo limit initOffset (fuel + 1) fetched off s =
      if nextOf page = 0 then
        .done { s1 with
          stdout := s1.stdout ++ [{ fetched := wrapInt (fetched + page.Builds.length),
                                    total := wrapInt (page.Pagination.Count - initOffset) }],
          writer := writeToCSV page.Builds s1.writer }
      else
        processLoop net repo limit initOffset fuel (wrapInt (fetched + page.Builds.length))
          (nextOf page)
          { s1 with
            stdout := s1.stdout ++ [{ fetched := wrapInt (fetched + page.Builds.length),
                                      total := wrapInt (page.Pagination.Count - initOffset) }],
            writer := writeToCSV page.Builds s1.writer } := by
  simp only [processLoop, h, nextOf]

theorem processLoop_trace (net : Net σ β) (repo : String) (limit initOffset : Int) (fuel : Nat) :
    ∀ (fetched off : Int) (s : State σ), ∃ ps : List TravisBuildResponse,
      LoopTrace repo limit initOffset fuel fetched off s
        (processLoop net repo limit initOffset fuel fetched off s) ps := by
  induction fuel with
  | zero =>
    intro fetched off s
    refine ⟨[], ?_⟩
    constructor <;> simp [processLoop, Run.state, Run.isPanicked, Run.isDone, rowsOf, progressOf]
  | succ fuel ih =>
    intro fetched off s
    rcases getBuilds_cases net repo limit off s with
      ⟨err, s1, h, hc, hp, hw, ho⟩ | ⟨page, s1, h, hc, hp, hw, ho⟩
    · refine ⟨[], ?_⟩
      rw [processLoop_panic net repo limit initOffset fuel fetched off s s1 err h]
      constructor <;>
        simp [Run.state, Run.isPanicked, Run.isDone, rowsOf, progressOf, hc, hp, hw, ho]
    · rw [processLoop_ok net repo limit initOffset fuel fetched off s s1 page h]
      by_cases hz : nextOf page = 0
      · refine ⟨[page], ?_⟩
        rw [if_pos hz]
        constructor <;>
          simp [Run.state, Run.isPanicked, Run.isDone, rowsOf, progressOf, hc, hp, hw, ho, hz,
            writeToCSV_records, writeToCSV_flushes, writeToCSV_file]
      · rw [if_neg hz]
        obtain ⟨ps, t⟩ := ih (wrapInt (fetched + page.Builds.length)) (nextOf page)
          { s1 with
            stdout := s1.stdout ++ [{ fetched := wrapInt (fetched + page.Builds.length),
                                      total := wrapInt (page.Pagination.Count - initOffset) }],
            writer := writeToCSV page.Builds s1.writer }
        refine ⟨page :: ps, ?_⟩
        generalize processLoop net repo limit initOffset fuel _ _ _ = r at t
        constructor
        · rw [t.pages]; simp [hp]
        · rw [t.records]; simp [rowsOf_cons, writeToCSV_records, hw]
        · rw [t.flushes]; simp [writeToCSV_flushes, hw]
        · rw [t.file]; simp [writeToCSV_file, hw]
        · rw [t.calls]
          simp only [hc, List.length_cons, List.map_cons, List.append_assoc, List.singleton_append]
          rw [Nat.add_right_comm, List.take_succ_cons, List.map_cons]
        · rw [t.stdout]; simp [progressOf, ho]
        · intro p hp2
          cases ps with
          | nil => simp at hp2
          | cons q qs =>
            simp only [List.dropLast_cons₂, List.mem_cons] at hp2
            rcases hp2 with rfl | hp2
            · exact hz
            · exact t.inner p hp2
        · intro hd
          obtain ⟨p, hl, hn⟩ := t.last_done hd
          refine ⟨p, ?_, hn⟩
          cases ps with
          | nil => simp at hl
          | cons q qs => simpa [List.getLast?_cons_cons] using hl
        · intro hd p hp2
          simp only [List.mem_cons] at hp2
          rcases hp2 with rfl | hp2
          · exact hz
          · exact t.last_other hd p hp2
        · have := t.bound
          simp only [List.length_cons]
          omega
        · intro hd hpn
          have := t.budget hd hpn
          simp only [List.length_cons]
          omega

theorem processAllBuilds_trace (net : Net σ β) (repo : String) (off : Int) (fuel : Nat)
    (remote : σ) (w : Writer) :
    LoopTrace repo 100 off fuel 0 off (State.start remote w)
      (processAllBuilds net repo off fuel (State.start remote w))
      (processAllBuilds net repo off fuel (State.start remote w)).state.pages := by
  obtain ⟨ps, t⟩ := processLoop_trace net repo 100 off fuel 0 off (State.start remote w)
  have hp : (processAllBuilds net repo off fuel (State.start remote w)).state.pages = ps := by
    have := t.pages
    simpa [State.start, processAllBuilds] using this
  rw [hp]
  exact t

theorem Run.not_isPanicked_of_isDone (r : Run σ) (h : r.isDone = true) :
    r.isPanicked = false := by
  cases r <;> simp_all [Run.isDone, Run.isPanicked]

theorem processAllBuilds_calls (net : Net σ β) (repo : String) (off : Int) (fuel : Nat)
    (remote : σ) (w : Writer) :
    (processAllBuilds net repo off fuel (State.start remote w)).state.calls =
      ((off :: (processAllBuilds net repo off fuel (State.start remote w)).state.pages.map
          nextOf).take (processAllBuilds net repo off fuel
            (State.start remote w)).state.calls.length).map (fun o => (repo, 100, o)) ∧
    (processAllBuilds net repo off fuel (State.start remote w)).state.calls.length =
      (processAllBuilds net repo off fuel (State.start remote w)).state.pages.length +
        (if (processAllBuilds net repo off fuel (State.start remote w)).isPanicked then 1
          else 0) := by
  have t := processAllBuilds_trace net repo off fuel remote w
  have hc := t.calls
  simp only [State.start, List.nil_append] at hc
  have hl : (processAllBuilds net repo off fuel (State.start remote w)).state.calls.length =
      (processAllBuilds net repo off fuel (State.start remote w)).state.pages.length +
        (if (processAllBuilds net repo off fuel (State.start remote w)).isPanicked then 1
          else 0) := by
    simp only [State.start]
    rw [hc]
    simp only [List.length_map, List.length_take, List.length_cons]
    split <;> omega
  refine ⟨?_, hl⟩
  rw [hl]
  exact hc

/-- A run that has ended (by `break` or by a panic) is the same under every
larger budget. -/
theorem processLoop_more (net : Net σ β) (repo : String) (limit initOffset : Int) (fuel : Nat) :
    ∀ (fetched off : Int) (s : State σ) (m : Nat),
      (processLoop net repo limit initOffset fuel fetched off s).isDone = true ∨
        (processLoop net repo limit initOffset fuel fetched off s).isPanicked = true →
      processLoop net repo limit initOffset (fuel + m) fetched off s =
        processLoop net repo limit initOffset fuel fetched off s := by
  induction fuel with
  | zero =>
    intro fetched off s m h
    simp [processLoop, Run.isDone, Run.isPanicked] at h
  | succ fuel ih =>
    intro fetched off s m h
    rw [Nat.add_right_comm]
    rcases getBuilds_cases net repo limit off s with
      ⟨err, s1, hg, -⟩ | ⟨page, s1, hg, -⟩
    · rw [processLoop_panic _ _ _ _ _ _ _ _ _ _ hg, processLoop_panic _ _ _ _ _ _ _ _ _ _ hg]
    · rw [processLoop_ok _ _ _ _ _ _ _ _ _ _ hg] at h ⊢
      rw [processLoop_ok _ _ _ _ _ _ _ _ _ _ hg]
      by_cases hz : nextOf page = 0
      · simp only [hz, if_true]
      · simp only [hz, if_false] at h ⊢
        exact ih _ _ _ m h

theorem FormatInt_ne_ID (n : Int) : FormatInt n ≠ "ID" := by
  intro h
  have hd : formatIntChars n = ['I', 'D'] := by
    have := congrArg String.data h
    simpa [FormatInt] using this
  unfold formatIntChars at hd
  split at hd
  · simp at hd
  · have := (formatUint_shape n.natAbs).2.1 'I' (by simp [hd])
    exact absurd this.2 (by decide)

theorem headers_not_mem_rowsOf (pages : List TravisBuildResponse) : headers ∉ rowsOf pages := by
  intro h
  simp only [rowsOf, List.mem_flatMap, List.mem_map] at h
  obtain ⟨p, -, b, -, hb⟩ := h
  have : FormatInt b.ID = "ID" := by
    have := congrArg List.head? hb
    simpa [line, headers] using this
  exact FormatInt_ne_ID _ this

theorem rowsOf_length (pages : List TravisBuildResponse) :
    (rowsOf pages).length = (pages.map (fun p => p.Builds.length)).sum := by
  induction pages with
  | nil => rfl
  | cons p ps ih => simp [rowsOf_cons, ih]

@[simp] theorem samplePage_next (n : Nat) (count next : Int) :
    (samplePage n count next).Pagination.Next.Offset = next := rfl

@[simp] theorem samplePage_nextOf (n : Nat) (count next : Int) :
    nextOf (samplePage n count next) = next := rfl

@[simp] theorem samplePage_count (n : Nat) (count next : Int) :
    (samplePage n count next).Pagination.Count = count := rfl

@[simp] theorem samplePage_length (n : Nat) (count next : Int) :
    (samplePage n count next).Builds.length = n := by
  simp [samplePage]

/-- A call of `getBuilds` on a scripted provider whose next script entry is a body. -/
theorem getBuilds_scripted (limit offset : Int)
    (s : State (List (Option (TravisBuildResponse × Option String))))
    (page : TravisBuildResponse) (err : Option String)
    (rest : List (Option (TravisBuildResponse × Option String)))
    (h : s.remote = some (page, err) :: rest) :
    getBuilds scripted RepoId limit offset s =
      (.ok page,
        { s with calls := s.calls ++ [(RepoId, limit, offset)], remote := rest,
                 sent := s.sent ++ [requestFor RepoId limit offset],
                 logged := s.logged ++ err.toList,
                 pages := s.pages ++ [page] }) := by
  rw [getBuilds_eq]
  simp [scripted, h]

end Loop

/-! ## Rows, header and call arguments -/

section Claims

variable {σ β : Type}

/-- C2: in every run of `processAllBuilds` (whatever pages `getBuilds` returned,
and however the run ended) the rows handed to the CSV writer after those it
already held are exactly the concatenation, in fetch order, of each fetched
page's builds in in-page order, one row per build; their number is the sum of
`len(page.Builds)` over the fetched pages.  In the scenario of a page of 100
builds with next offset 100 followed by a page of 50 builds with next offset 0
the run ends by `break` after 2 fetches with 150 data rows (after the header),
under every budget of at least 2 iterations. -/
theorem processAllBuilds_rows (net : Net σ β) (repo : String) (off : Int) (fuel : Nat)
    (remote : σ) (w : Writer) (k : Nat) :
    ((processAllBuilds net repo off fuel (State.start remote w)).state.writer.records =
        w.records ++
          (processAllBuilds net repo off fuel (State.start remote w)).state.pages.flatMap
            (fun page => page.Builds.map line)) ∧
    ((processAllBuilds net repo off fuel (State.start remote w)).state.writer.records.length =
        w.records.length +
          ((processAllBuilds net repo off fuel (State.start remote w)).state.pages.map
            (fun page => page.Builds.length)).sum) ∧
    ((processAllBuilds scripted RepoId 0 (k + 2) (State.start twoPages createWriter)).isDone
        = true ∧
      (processAllBuilds scripted RepoId 0 (k + 2) (State.start twoPages createWriter)).state.calls.length
        = 2 ∧
      (processAllBuilds scripted RepoId 0 (k + 2) (State.start twoPages createWriter)).state.writer.records
        = headers :: ((samplePage 100 150 100).Builds.map line
            ++ (samplePage 50 150 0).Builds.map line) ∧
      (processAllBuilds scripted RepoId 0 (k + 2)
        (State.start twoPages createWriter)).state.writer.records.length = 1 + 150) := by
  have t := processAllBuilds_trace net repo off fuel remote w
  refine ⟨t.records, ?_, ?_⟩
  · rw [t.records, List.length_append, rowsOf_length]
    rfl
  · have hd : (processAllBuilds scripted RepoId 0 (k + 2)
        (State.start twoPages createWriter)).isDone = true := by
      simp [processAllBuilds, processLoop, getBuilds_eq, scripted, State.start, twoPages,
        Run.isDone]
    have hp : (processAllBuilds scripted RepoId 0 (k + 2)
        (State.start twoPages createWriter)).state.pages
          = [samplePage 100 150 100, samplePage 50 150 0] := by
      simp [processAllBuilds, processLoop, getBuilds_eq, scripted, State.start, twoPages,
        Run.state]
    have t2 := processAllBuilds_trace scripted RepoId 0 (k + 2) twoPages createWriter
    have hr := t2.records
    have hc := (processAllBuilds_calls scripted RepoId 0 (k + 2) twoPages createWriter).2
    rw [hp] at hr
    rw [hp, Run.not_isPanicked_of_isDone _ hd] at hc
    refine ⟨hd, ?_, ?_, ?_⟩
    · rw [hc]; rfl
    · rw [hr]; simp [rowsOf, createWriter, Writer.Write, State.start]
    · rw [hr]; simp [rowsOf, createWriter, Writer.Write, headers, State.start]

theorem main_state (net : Net σ β) (fuel : Nat) (remote : σ) :
    (main net fuel remote).state.writer.records =
        (processAllBuilds net RepoId 7200 fuel
          (State.start remote createWriter)).state.writer.records ∧
    (main net fuel remote).state.pages =
        (processAllBuilds net RepoId 7200 fuel (State.start remote createWriter)).state.pages ∧
    (main net fuel remote).state.calls =
        (processAllBuilds net RepoId 7200 fuel (State.start remote createWriter)).state.calls ∧
    (main net fuel remote).isPanicked =
        (processAllBuilds net RepoId 7200 fuel (State.start remote createWriter)).isPanicked ∧
    (main net fuel remote).isDone =
        (processAllBuilds net RepoId 7200 fuel (State.start remote createWriter)).isDone ∧
    (main net fuel remote).state.writer.flushes =
      (if (processAllBuilds net RepoId 7200 fuel (State.start remote createWriter)).isDone
        then 1 else 0) := by
  have t := processAllBuilds_trace net RepoId 7200 fuel remote createWriter
  have hf := t.flushes
  unfold main
  cases h : processAllBuilds net RepoId 7200 fuel (State.start remote createWriter) <;>
    simp_all [Run.state, Run.isPanicked, Run.isDone, Writer.Flush, State.start, createWriter,
      Writer.Write]

theorem main_file (net : Net σ β) (fuel : Nat) (remote : σ) :
    (main net fuel remote).state.writer.file =
      if (main net fuel remote).isDone then (main net fuel remote).state.writer.records
      else [] := by
  have t := processAllBuilds_trace net RepoId 7200 fuel remote createWriter
  have hf := t.file
  unfold main
  cases h : processAllBuilds net RepoId 7200 fuel (State.start remote createWriter) <;>
    simp_all [Run.state, Run.isPanicked, Run.isDone, Writer.Flush, State.start, createWriter,
      Writer.Write]

theorem processAllBuilds_calls_pos (net : Net σ β) (repo : String) (off : Int) (fuel : Nat)
    (remote : σ) (w : Writer) :
    0 < (processAllBuilds net repo off (fuel + 1) (State.start remote w)).state.calls.length := by
  have t := processAllBuilds_trace net repo off (fuel + 1) remote w
  rw [(processAllBuilds_calls net repo off (fuel + 1) remote w).2]
  by_cases hp : (processAllBuilds net repo off (fuel + 1) (State.start remote w)).isPanicked = true
  · simp [hp]
  · by_cases hd : (processAllBuilds net repo off (fuel + 1) (State.start remote w)).isDone = true
    · obtain ⟨p, hl, -⟩ := t.last_done hd
      cases hps : (processAllBuilds net repo off (fuel + 1) (State.start remote w)).state.pages with
      | nil => simp [hps] at hl
      | cons q qs => simp
    · have := t.budget (by simpa using hd) (by simpa using hp)
      omega

/-- C3, as stated, fails for a run that aborts: when the second fetch fails in
the transport, the header and the 3 rows of the first page have been handed to
the writer, but `main` panics before its `Flush`, and the output file holds no
row at all, so the header is not written to the output. -/
theorem main_output_counterexample :
    (main scripted 2 brokenSecond).isPanicked = true ∧
    (main scripted 2 brokenSecond).state.writer.records =
      [headers, line (sampleBuild 0), line (sampleBuild 1), line (sampleBuild 2)] ∧
    (main scripted 2 brokenSecond).state.writer.flushes = 0 ∧
    (main scripted 2 brokenSecond).state.writer.file = [] ∧
    (main scripted 2 brokenSecond).state.writer.file.head? ≠ some headers := by
  have hp : (processAllBuilds scripted RepoId 7200 2
      (State.start brokenSecond createWriter)).isPanicked = true := by
    simp [processAllBuilds, processLoop, getBuilds_eq, scripted, State.start, brokenSecond,
      Run.isPanicked]
  have hpg : (processAllBuilds scripted RepoId 7200 2
      (State.start brokenSecond createWriter)).state.pages = [samplePage 3 150 100] := by
    simp [processAllBuilds, processLoop, getBuilds_eq, scripted, State.start, brokenSecond,
      Run.state]
  obtain ⟨hr, -, -, hpn, hdn, hfl⟩ := main_state scripted 2 brokenSecond
  have t := processAllBuilds_trace scripted RepoId 7200 2 brokenSecond createWriter
  have hnd : (main scripted 2 brokenSecond).isDone = false := by
    rw [hdn]
    cases hrun : processAllBuilds scripted RepoId 7200 2 (State.start brokenSecond createWriter) <;>
      simp_all [Run.isDone, Run.isPanicked]
  have hfile : (main scripted 2 brokenSecond).state.writer.file = [] := by
    rw [main_file, hnd]; rfl
  refine ⟨by rw [hpn, hp], ?_, ?_, hfile, ?_⟩
  · rw [hr, t.records, hpg]; rfl
  · rw [hfl, ← hdn, hnd]; rfl
  · rw [hfile]; simp

/-- C3 (amended): for every run of `main` that ends normally (the loop reaches
its `break`, whatever pages the provider returned), `main` has flushed once and
the output file holds the header row followed by the data rows of the fetched
pages: its first row is the fixed 12-column header `ID, Number, State,
EventType, RepositoryName, BranchName, PullRequestTitle, StartedAt, FinishedAt,
Duration, CreatedByID, CreatedByLogin`, which stands before every data row and
occurs exactly once; with zero builds in total the file holds the header only.
In every run, however it ends, the header is the first record handed to the
writer, exactly once. -/
theorem main_output_header (net : Net σ β) (fuel : Nat) (remote : σ)
    (hd : (main net fuel remote).isDone = true) :
    (main net fuel remote).state.writer.flushes = 1 ∧
    (main net fuel remote).state.writer.file =
      headers :: (main net fuel remote).state.pages.flatMap (fun page => page.Builds.map line) ∧
    (main net fuel remote).state.writer.file.head? =
      some ["ID", "Number", "State", "EventType", "RepositoryName", "BranchName",
        "PullRequestTitle", "StartedAt", "FinishedAt", "Duration", "CreatedByID",
        "CreatedByLogin"] ∧
    headers ∉ (main net fuel remote).state.pages.flatMap (fun page => page.Builds.map line) ∧
    (main net fuel remote).state.writer.file.count headers = 1 ∧
    ((∀ page ∈ (main net fuel remote).state.pages, page.Builds = []) →
      (main net fuel remote).state.writer.file = [headers]) ∧
    (∀ (fuel1 : Nat) (remote1 : σ),
      (main net fuel1 remote1).state.writer.records =
        headers :: (main net fuel1 remote1).state.pages.flatMap
          (fun page => page.Builds.map line)) := by
  have hrecs : ∀ (fuel1 : Nat) (remote1 : σ),
      (main net fuel1 remote1).state.writer.records =
        headers :: (main net fuel1 remote1).state.pages.flatMap
          (fun page => page.Builds.map line) := by
    intro fuel1 remote1
    obtain ⟨hr, hp, -, -, -, -⟩ := main_state net fuel1 remote1
    have t := processAllBuilds_trace net RepoId 7200 fuel1 remote1 createWriter
    rw [hr, hp, t.records]
    rfl
  obtain ⟨-, -, -, -, hdn, hfl⟩ := main_state net fuel remote
  have hfile : (main net fuel remote).state.writer.file =
      headers :: (main net fuel remote).state.pages.flatMap
        (fun page => page.Builds.map line) := by
    rw [main_file, hd, if_pos rfl]
    exact hrecs fuel remote
  have hnot := headers_not_mem_rowsOf (main net fuel remote).state.pages
  refine ⟨?_, hfile, ?_, hnot, ?_, ?_, hrecs⟩
  · rw [hfl, ← hdn, hd]; rfl
  · rw [hfile]; rfl
  · rw [hfile, List.count_cons_self]
    exact congrArg (· + 1) (List.count_eq_zero_of_not_mem hnot)
  · intro h0
    rw [hfile]
    have : (main net fuel remote).state.pages.flatMap (fun page => page.Builds.map line) = [] := by
      rw [List.flatMap_eq_nil_iff]
      intro page hpage
      simp [h0 page hpage]
    rw [this]

/-- A run against an empty repository (one page with no build, next offset 0)
ends normally after 1 fetch, and the output file holds the header only. -/
theorem main_output_header_witness :
    (main scripted 1 noBuilds).isDone = true ∧
    (main scripted 1 noBuilds).state.calls.length = 1 ∧
    (main scripted 1 noBuilds).state.writer.flushes = 1 ∧
    (main scripted 1 noBuilds).state.writer.file = [headers] := by
  have hd : (processAllBuilds scripted RepoId 7200 1
      (State.start noBuilds createWriter)).isDone = true := by
    simp [processAllBuilds, processLoop, getBuilds_eq, scripted, State.start, noBuilds,
      Run.isDone]
  have hpg : (processAllBuilds scripted RepoId 7200 1
      (State.start noBuilds createWriter)).state.pages = [samplePage 0 0 0] := by
    simp [processAllBuilds, processLoop, getBuilds_eq, scripted, State.start, noBuilds,
      Run.state]
  obtain ⟨-, hp2, hc2, -, hd2, -⟩ := main_state scripted 1 noBuilds
  have hmd : (main scripted 1 noBuilds).isDone = true := by rw [hd2, hd]
  have hcl := (processAllBuilds_calls scripted RepoId 7200 1 noBuilds createWriter).2
  rw [hpg, Run.not_isPanicked_of_isDone _ hd] at hcl
  obtain ⟨h1, h2, -⟩ := main_output_header scripted 1 noBuilds hmd
  refine ⟨hmd, by rw [hc2, hcl]; rfl, h1, ?_⟩
  rw [h2, hp2, hpg]
  rfl

theorem LoopTrace.fetch_iff {repo : String} {limit initOffset : Int} {fuel : Nat}
    {fetched off : Int} {s : State σ} {r : Run σ} {ps : List TravisBuildResponse}
    (t : LoopTrace repo limit initOffset fuel fetched off s r ps) (j : Nat) (hj : j + 1 ≤ fuel) :
    j + 1 ≤ ps.length + (if r.isPanicked then 1 else 0) ↔
      ∀ i < j, ∃ page, ps[i]? = some page ∧ nextOf page ≠ 0 := by
  constructor
  · intro h i hi
    by_cases hp : r.isPanicked = true
    · simp only [hp, if_true] at h
      have hlt : i < ps.length := by omega
      refine ⟨ps[i], List.getElem?_eq_getElem hlt, ?_⟩
      have hd : r.isDone = false := by
        cases r <;> simp_all [Run.isDone, Run.isPanicked]
      exact t.last_other hd _ (List.getElem_mem hlt)
    · have hp2 : r.isPanicked = false := by simpa using hp
      simp only [hp2, Bool.false_eq_true, if_false, Nat.add_zero] at h
      have hlt : i < ps.length := by omega
      refine ⟨ps[i], List.getElem?_eq_getElem hlt, ?_⟩
      have hlt2 : i < ps.dropLast.length := by
        rw [List.length_dropLast]; omega
      have hm : ps.dropLast[i] ∈ ps.dropLast := List.getElem_mem hlt2
      rw [List.getElem_dropLast] at hm
      exact t.inner _ hm
  · intro h
    have hle : j ≤ ps.length := by
      rcases Nat.eq_zero_or_pos j with h0 | hpos
      · omega
      · obtain ⟨page, hpg, -⟩ := h (j - 1) (by omega)
        obtain ⟨hlt, -⟩ := List.getElem?_eq_some_iff.mp hpg
        omega
    by_cases hp : r.isPanicked = true
    · simp only [hp, if_true]; omega
    · have hp2 : r.isPanicked = false := by simpa using hp
      simp only [hp2, Bool.false_eq_true, if_false, Nat.add_zero]
      by_cases hd : r.isDone = true
      · obtain ⟨p, hl, hz⟩ := t.last_done hd
        rw [List.getLast?_eq_getElem?] at hl
        obtain ⟨hlt, -⟩ := List.getElem?_eq_some_iff.mp hl
        by_contra hcon
        have hj2 : j = ps.length := by omega
        obtain ⟨page, hpg, hnz⟩ := h (j - 1) (by omega)
        rw [hj2, hl] at hpg
        cases hpg
        exact hnz hz
      · have := t.budget (by simpa using hd) (by simpa using hp)
        omega

theorem processLoop_never_done (net : Net σ β) (repo : String) (limit initOffset : Int)
    (h : ∀ (off : Int) (s : State σ), ∃ page s1,
      getBuilds net repo limit off s = (.ok page, s1) ∧ nextOf page ≠ 0) (fuel : Nat) :
    ∀ (fetched off : Int) (s : State σ),
      (processLoop net repo limit initOffset fuel fetched off s).isDone = false ∧
      (processLoop net repo limit initOffset fuel fetched off s).isPanicked = false := by
  induction fuel with
  | zero => intro fetched off s; simp [processLoop, Run.isDone, Run.isPanicked]
  | succ fuel ih =>
    intro fetched off s
    obtain ⟨page, s1, hg, hnz⟩ := h off s
    rw [processLoop_ok _ _ _ _ _ _ _ _ _ _ hg, if_neg hnz]
    exact ih _ _ _

/-- C5: `processAllBuilds` stops exactly at the first page whose
`Pagination.Next.Offset` is 0.  For every run: it ended by `break` if and only
if the last page returned has next offset 0; every page before the last has a
non-zero next offset; after the `break` no further fetch is made (as many calls
as pages, and the same run under every larger budget); and, when the budget
allows `j + 1` iterations, fetch number `j + 1` happens if and only if each of
the first `j` fetches returned a page with a non-zero next offset.  A single
page of 2 builds with next offset 0 gives exactly 1 fetch and 2 data rows.  A
provider none of whose pages has next offset 0 keeps the loop running: with a
budget of `n` iterations it makes `n` fetches and has not stopped, so it makes
more than `n` fetches for every `n`. -/
theorem processAllBuilds_stops_at_zero (net : Net σ β) (repo : String) (off : Int)
    (remote : σ) (w : Writer) (fuel j m k n : Nat) :
    ((processAllBuilds net repo off fuel (State.start remote w)).isDone = true ↔
      ∃ page, (processAllBuilds net repo off fuel (State.start remote w)).state.pages.getLast?
        = some page ∧ page.Pagination.Next.Offset = 0) ∧
    (∀ page ∈ (processAllBuilds net repo off fuel (State.start remote w)).state.pages.dropLast,
      page.Pagination.Next.Offset ≠ 0) ∧
    ((processAllBuilds net repo off fuel (State.start remote w)).isDone = true →
      (processAllBuilds net repo off fuel (State.start remote w)).state.calls.length =
        (processAllBuilds net repo off fuel (State.start remote w)).state.pages.length ∧
      ∀ extra, processAllBuilds net repo off (fuel + extra) (State.start remote w) =
        processAllBuilds net repo off fuel (State.start remote w)) ∧
    (j + 1 ≤ (processAllBuilds net repo off (j + 1 + m) (State.start remote w)).state.calls.length ↔
      ∀ i < j, ∃ page,
        (processAllBuilds net repo off (j + 1 + m) (State.start remote w)).state.pages[i]?
          = some page ∧ page.Pagination.Next.Offset ≠ 0) ∧
    ((processAllBuilds scripted RepoId 0 (k + 1) (State.start onePage createWriter)).isDone = true ∧
      (processAllBuilds scripted RepoId 0 (k + 1)
        (State.start onePage createWriter)).state.calls.length = 1 ∧
      (processAllBuilds scripted RepoId 0 (k + 1)
        (State.start onePage createWriter)).state.writer.records =
          [headers, line (sampleBuild 0), line (sampleBuild 1)]) ∧
    ((∀ (o : Int) (s : State σ), ∃ page s1,
        getBuilds net repo 100 o s = (.ok page, s1) ∧ page.Pagination.Next.Offset ≠ 0) →
      (processAllBuilds net repo off n (State.start remote w)).isDone = false ∧
      (processAllBuilds net repo off n (State.start remote w)).isPanicked = false ∧
      (processAllBuilds net repo off n (State.start remote w)).state.calls.length = n ∧
      n < (processAllBuilds net repo off (n + 1) (State.start remote w)).state.calls.length) ∧
    ((processAllBuilds endless RepoId 0 n (State.start () createWriter)).isDone = false ∧
      n < (processAllBuilds endless RepoId 0 (n + 1)
        (State.start () createWriter)).state.calls.length) := by
  have t := processAllBuilds_trace net repo off fuel remote w
  have never : ∀ {σ1 β1 : Type} (net1 : Net σ1 β1) (repo1 : String) (off1 : Int) (remote1 : σ1)
      (w1 : Writer),
      (∀ (o : Int) (s : State σ1), ∃ page s1,
        getBuilds net1 repo1 100 o s = (.ok page, s1) ∧ page.Pagination.Next.Offset ≠ 0) →
      ∀ n1, (processAllBuilds net1 repo1 off1 n1 (State.start remote1 w1)).isDone = false ∧
        (processAllBuilds net1 repo1 off1 n1 (State.start remote1 w1)).isPanicked = false ∧
        (processAllBuilds net1 repo1 off1 n1 (State.start remote1 w1)).state.calls.length = n1 := by
    intro σ1 β1 net1 repo1 off1 remote1 w1 h n1
    obtain ⟨hd, hp⟩ := processLoop_never_done net1 repo1 100 off1 h n1 0 off1
      (State.start remote1 w1)
    have t1 := processAllBuilds_trace net1 repo1 off1 n1 remote1 w1
    refine ⟨hd, hp, ?_⟩
    rw [(processAllBuilds_calls net1 repo1 off1 n1 remote1 w1).2]
    have hb := t1.budget hd hp
    have hp2 : (processAllBuilds net1 repo1 off1 n1 (State.start remote1 w1)).isPanicked
        = false := hp
    rw [hp2, hb]
    rfl
  refine ⟨⟨t.last_done, ?_⟩, t.inner, ?_, ?_, ?_, ?_, ?_⟩
  · rintro ⟨page, hl, hz⟩
    by_contra hd
    exact t.last_other (by simpa using hd) page (List.mem_of_getLast?_eq_some hl) hz
  · intro hd
    refine ⟨?_, ?_⟩
    · rw [(processAllBuilds_calls net repo off fuel remote w).2,
        Run.not_isPanicked_of_isDone _ hd]
      rfl
    · intro extra
      exact processLoop_more net repo 100 off fuel 0 off _ extra (Or.inl hd)
  · rw [(processAllBuilds_calls net repo off (j + 1 + m) remote w).2]
    exact (processAllBuilds_trace net repo off (j + 1 + m) remote w).fetch_iff j (by omega)
  · have hd : (processAllBuilds scripted RepoId 0 (k + 1)
        (State.start onePage createWriter)).isDone = true := by
      simp [processAllBuilds, processLoop, getBuilds_eq, scripted, State.start, onePage,
        Run.isDone]
    have hpg : (processAllBuilds scripted RepoId 0 (k + 1)
        (State.start onePage createWriter)).state.pages = [samplePage 2 2 0] := by
      simp [processAllBuilds, processLoop, getBuilds_eq, scripted, State.start, onePage,
        Run.state]
    have t2 := processAllBuilds_trace scripted RepoId 0 (k + 1) onePage createWriter
    have hcl := (processAllBuilds_calls scripted RepoId 0 (k + 1) onePage createWriter).2
    rw [hpg, Run.not_isPanicked_of_isDone _ hd] at hcl
    refine ⟨hd, by rw [hcl]; rfl, ?_⟩
    rw [t2.records, hpg]
    rfl
  · intro h
    obtain ⟨h1, h2, h3⟩ := never net repo off remote w h n
    refine ⟨h1, h2, h3, ?_⟩
    rw [(never net repo off remote w h (n + 1)).2.2]
    omega
  · have h : ∀ (o : Int) (s : State Unit), ∃ page s1,
        getBuilds endless RepoId 100 o s = (.ok page, s1) ∧ page.Pagination.Next.Offset ≠ 0 := by
      intro o s
      rw [getBuilds_eq]
      simp [endless]
    refine ⟨(never endless RepoId 0 () createWriter h n).1, ?_⟩
    rw [(never endless RepoId 0 () createWriter h (n + 1)).2.2]
    omega

/-- C7: `getBuilds` panics if and only if request construction fails or the
transport call fails; when the transport call returns a body, `getBuilds`
returns a page whatever the decoder reports, and only logs a decode error.
When a fetch panics during `processAllBuilds`, that call is the last one (one
more call than pages returned, and the same run under every larger budget),
the rows handed to the writer are exactly those of the pages fetched before
it, and in `main` the final `Flush` is not reached (it is reached exactly when
the loop ends by `break`).  In the run whose second fetch fails in the
transport, 2 calls are made and the records are the header and the 3 rows
of the first page, unflushed. -/
theorem getBuilds_panic_iff (net : Net σ β) (repo : String) (limit offset : Int) (s : State σ)
    (off : Int) (fuel : Nat) (remote : σ) (w : Writer) (k : Nat) :
    ((∃ err, (getBuilds net repo limit offset s).1 = .panic err) ↔
      ((∃ err, NewRequest "GET" (buildsURL repo limit offset) = .error err) ∨
        (∃ req err remote1, NewRequest "GET" (buildsURL repo limit offset) = .ok req ∧
          net.Do ((req.HeaderAdd "Travis-API-Version" "3").HeaderAdd "Authorization"
            ("token " ++ APIKey)) s.remote = (.error err, remote1)))) ∧
    (∀ req body remote1, NewRequest "GET" (buildsURL repo limit offset) = .ok req →
      net.Do ((req.HeaderAdd "Travis-API-Version" "3").HeaderAdd "Authorization"
        ("token " ++ APIKey)) s.remote = (.ok body, remote1) →
      (getBuilds net repo limit offset s).1 = .ok (net.Decode body).1 ∧
      (getBuilds net repo limit offset s).2.logged = s.logged ++ (net.Decode body).2.toList) ∧
    ((processAllBuilds net repo off fuel (State.start remote w)).isPanicked = true →
      (processAllBuilds net repo off fuel (State.start remote w)).state.calls.length =
        (processAllBuilds net repo off fuel (State.start remote w)).state.pages.length + 1 ∧
      (processAllBuilds net repo off fuel (State.start remote w)).state.writer.records =
        w.records ++ (processAllBuilds net repo off fuel (State.start remote w)).state.pages.flatMap
          (fun page => page.Builds.map line) ∧
      ∀ extra, processAllBuilds net repo off (fuel + extra) (State.start remote w) =
        processAllBuilds net repo off fuel (State.start remote w)) ∧
    ((main net fuel remote).isPanicked = true →
      (main net fuel remote).state.writer.flushes = 0 ∧
      (main net fuel remote).state.calls.length = (main net fuel remote).state.pages.length + 1 ∧
      (main net fuel remote).state.writer.records =
        headers :: (main net fuel remote).state.pages.flatMap
          (fun page => page.Builds.map line)) ∧
    ((main net fuel remote).state.writer.flushes =
      if (main net fuel remote).isDone then 1 else 0) ∧
    ((main scripted (k + 2) brokenSecond).isPanicked = true ∧
      (main scripted (k + 2) brokenSecond).state.calls.length = 2 ∧
      (main scripted (k + 2) brokenSecond).state.writer.flushes = 0 ∧
      (main scripted (k + 2) brokenSecond).state.writer.records =
        [headers, line (sampleBuild 0), line (sampleBuild 1), line (sampleBuild 2)]) := by
  have t := processAllBuilds_trace net repo off fuel remote w
  have key : ∀ {σ1 β1 : Type} (net1 : Net σ1 β1) (fuel1 : Nat) (remote1 : σ1),
      (main net1 fuel1 remote1).isPanicked = true →
      (main net1 fuel1 remote1).state.writer.flushes = 0 ∧
      (main net1 fuel1 remote1).state.calls.length =
        (main net1 fuel1 remote1).state.pages.length + 1 ∧
      (main net1 fuel1 remote1).state.writer.records =
        headers :: (main net1 fuel1 remote1).state.pages.flatMap
          (fun page => page.Builds.map line) := by
    intro σ1 β1 net1 fuel1 remote1 hp
    obtain ⟨hr, hpg, hc, hpn, hdn, hfl⟩ := main_state net1 fuel1 remote1
    have t1 := processAllBuilds_trace net1 RepoId 7200 fuel1 remote1 createWriter
    rw [hpn] at hp
    have hnd : (processAllBuilds net1 RepoId 7200 fuel1
        (State.start remote1 createWriter)).isDone = false := by
      cases hrun : processAllBuilds net1 RepoId 7200 fuel1 (State.start remote1 createWriter) <;>
        simp_all [Run.isDone, Run.isPanicked]
    refine ⟨by rw [hfl, hnd]; rfl, ?_, ?_⟩
    · rw [hc, hpg, (processAllBuilds_calls net1 RepoId 7200 fuel1 remote1 createWriter).2, hp]
      rfl
    · rw [hr, hpg, t1.records]
      rfl
  refine ⟨?_, ?_, ?_, key net fuel remote, ?_, ?_⟩
  · cases hreq : NewRequest "GET" (buildsURL repo limit offset) with
    | error err =>
      rw [getBuilds_of_error net repo limit offset s err hreq]
      simp
    | ok req =>
      rw [getBuilds_of_request net repo limit offset s req hreq]
      rcases hd : net.Do _ s.remote with ⟨res, remote1⟩
      cases res with
      | error err => simp [hd]
      | ok body => simp [hd]
  · intro req body remote1 hreq hdo
    rw [getBuilds_of_request net repo limit offset s req hreq, hdo]
    exact ⟨rfl, rfl⟩
  · intro hp
    refine ⟨?_, t.records, ?_⟩
    · rw [(processAllBuilds_calls net repo off fuel remote w).2, hp]
      rfl
    · intro extra
      exact processLoop_more net repo 100 off fuel 0 off _ extra (Or.inr hp)
  · obtain ⟨-, -, -, -, hdn, hfl⟩ := main_state net fuel remote
    rw [hdn]
    exact hfl
  · have hp : (processAllBuilds scripted RepoId 7200 (k + 2)
        (State.start brokenSecond createWriter)).isPanicked = true := by
      simp [processAllBuilds, processLoop, getBuilds_eq, scripted, State.start, brokenSecond,
        Run.isPanicked]
    have hpg : (processAllBuilds scripted RepoId 7200 (k + 2)
        (State.start brokenSecond createWriter)).state.pages = [samplePage 3 150 100] := by
      simp [processAllBuilds, processLoop, getBuilds_eq, scripted, State.start, brokenSecond,
        Run.state]
    obtain ⟨-, hpg2, -, hpn, -, -⟩ := main_state scripted (k + 2) brokenSecond
    have hmp : (main scripted (k + 2) brokenSecond).isPanicked = true := by rw [hpn, hp]
    obtain ⟨h1, h2, h3⟩ := key scripted (k + 2) brokenSecond hmp
    refine ⟨hmp, ?_, h1, ?_⟩
    · rw [h2, hpg2, hpg]; rfl
    · rw [h3, hpg2, hpg]; rfl

/-- C8: for every repository identifier `repo` (a numeric id, a URL-encoded
slug, and generally any text that is safe in a URL path), every `limit` and
every `offset`, one call of `getBuilds` hands exactly one request to the
client: a GET request whose URL is `https://api.travis-ci.com/repo/` ++ repo ++
`/builds?limit=` ++ decimal(limit) ++ `&offset=` ++ decimal(offset) ++
`&sort_by=started_at:desc` (host `api.travis-ci.com`, path `/repo/` ++ repo ++
`/builds`), whose query string holds the decimal renderings of the given limit
and offset, which read back as `limit` and `offset`, and whose header has the
two fields `Travis-API-Version: 3` (stored under the canonical spelling
`Travis-Api-Version` of the key) and `Authorization: token ` ++ APIKey. -/
theorem getBuilds_request (net : Net σ β) (repo : String) (limit offset : Int) (s : State σ)
    (hrepo : urlSafe repo = true) :
    ∃ req : Request,
      (getBuilds net repo limit offset s).2.sent = s.sent ++ [req] ∧
      req.Method = "GET" ∧
      req.URL.String =
        "https://api.travis-ci.com/repo/" ++ repo ++ "/builds?limit=" ++ FormatInt limit
          ++ "&offset=" ++ FormatInt offset ++ "&sort_by=started_at:desc" ∧
      req.URL.Scheme = "https" ∧ req.URL.Host = "api.travis-ci.com" ∧
      req.URL.EscapedPath = "/repo/" ++ repo ++ "/builds" ∧
      req.URL.RawQuery =
        "limit=" ++ FormatInt limit ++ "&offset=" ++ FormatInt offset
          ++ "&sort_by=started_at:desc" ∧
      parseInt (FormatInt limit) = some limit ∧ parseInt (FormatInt offset) = some offset ∧
      req.Header = [("Travis-Api-Version", "3"), ("Authorization", "token " ++ APIKey)] ∧
      req.HeaderGet "Travis-API-Version" = "3" ∧
      req.HeaderGet "Authorization" = "token " ++ APIKey := by
  refine ⟨requestFor repo limit offset, ?_, rfl, travisURL_String repo limit offset, rfl, rfl,
    rfl, rfl, parseInt_FormatInt limit, parseInt_FormatInt offset, rfl, rfl, rfl⟩
  rw [getBuilds_urlSafe net repo limit offset s hrepo]
  rcases hd : net.Do _ s.remote with ⟨res, remote1⟩
  cases res <;> rfl

/-- The first request `main` makes, `getBuilds(RepoId, 100, 7200)`, and the
request for the slug `rails%2Frails`. -/
theorem getBuilds_request_witness :
    urlSafe RepoId = true ∧ urlSafe "rails%2Frails" = true ∧
    (∃ req : Request,
      (getBuilds scripted RepoId 100 7200 (State.start onePage createWriter)).2.sent = [req] ∧
      req.URL.String =
        "https://api.travis-ci.com/repo/repo_id/builds?limit=100&offset=7200&sort_by=started_at:desc" ∧
      req.Header = [("Travis-Api-Version", "3"), ("Authorization", "token travis_api_key")]) ∧
    (∃ req : Request,
      (getBuilds scripted "rails%2Frails" 100 0 (State.start onePage createWriter)).2.sent
        = [req] ∧
      req.URL.String =
        "https://api.travis-ci.com/repo/rails%2Frails/builds?limit=100&offset=0&sort_by=started_at:desc") := by
  refine ⟨by decide, by decide, ?_, ?_⟩
  · obtain ⟨req, h1, -, h3, -, -, -, -, -, -, h10, -, -⟩ :=
      getBuilds_request scripted RepoId 100 7200 (State.start onePage createWriter) (by decide)
    exact ⟨req, h1, h3.trans (by decide), h10⟩
  · obtain ⟨req, h1, -, h3, -⟩ :=
      getBuilds_request scripted "rails%2Frails" 100 0 (State.start onePage createWriter)
        (by decide)
    exact ⟨req, h1, h3.trans (by decide)⟩

/-- C6, as stated, fails: a decode failure does not always leave the zero-value
page.  For a body whose `builds` value has the wrong type the decoder reports
an error, which `getBuilds` logs, and the page it returns carries the decoded
pagination with next offset 100, so the loop goes on to a second fetch and
writes the rows of its page. -/
theorem getBuilds_decode_failure_counterexample :
    (getBuilds scripted RepoId 100 0 (State.start halfDecoded createWriter)).1 =
      .ok (samplePage 0 150 100) ∧
    (getBuilds scripted RepoId 100 0 (State.start halfDecoded createWriter)).2.logged =
      ["json: cannot unmarshal string into Go struct field"] ∧
    samplePage 0 150 100 ≠ TravisBuildResponse.zero ∧
    (processAllBuilds scripted RepoId 0 2 (State.start halfDecoded createWriter)).state.calls.length
      = 2 ∧
    (processAllBuilds scripted RepoId 0 2
      (State.start halfDecoded createWriter)).state.writer.records.length = 1 + 50 := by
  have hne : samplePage 0 150 100 ≠ TravisBuildResponse.zero := by
    intro h
    have := congrArg (fun p => p.Pagination.Next.Offset) h
    simp [TravisBuildResponse.zero, PageRef.zero] at this
  have hd : (processAllBuilds scripted RepoId 0 2
      (State.start halfDecoded createWriter)).isDone = true := by
    simp [processAllBuilds, processLoop, getBuilds_eq, scripted, State.start, halfDecoded,
      Run.isDone]
  have hpg : (processAllBuilds scripted RepoId 0 2
      (State.start halfDecoded createWriter)).state.pages
        = [samplePage 0 150 100, samplePage 50 150 0] := by
    simp [processAllBuilds, processLoop, getBuilds_eq, scripted, State.start, halfDecoded,
      Run.state]
  have t2 := processAllBuilds_trace scripted RepoId 0 2 halfDecoded createWriter
  have hcl := (processAllBuilds_calls scripted RepoId 0 2 halfDecoded createWriter).2
  rw [hpg, Run.not_isPanicked_of_isDone _ hd] at hcl
  refine ⟨?_, ?_, hne, by rw [hcl]; rfl, ?_⟩
  · rw [getBuilds_scripted 100 0 _ _ _ _ rfl]
  · rw [getBuilds_scripted 100 0 _ _ _ _ rfl]
    rfl
  · rw [t2.records, hpg, List.length_append, rowsOf_length]
    simp [State.start, createWriter, Writer.Write]

/-- C6 (amended): whenever the decoder fails on the response body without
having stored anything (the destination keeps its zero value, as for a body
that is not JSON), `getBuilds` logs the error and returns the zero-value page
(no builds, next offset 0), so the loop iteration that made this fetch writes
no row and ends the loop by `break`, without a panic.  In particular, when the
first fetch decodes to a page with non-zero next offset and the second body is
such an undecodable one, `main` makes 2 fetches, hands exactly the header and
the first page's rows to the writer, and ends normally with the final flush. -/
theorem getBuilds_decode_failure (net : Net σ β) (repo : String) (initOffset : Int)
    (fuel : Nat) (fetched off : Int) (s : State σ) (req : Request) (body : β) (remote1 : σ)
    (err : String) (k : Nat)
    (hreq : NewRequest "GET" (buildsURL repo 100 off) = .ok req)
    (hdo : net.Do ((req.HeaderAdd "Travis-API-Version" "3").HeaderAdd "Authorization"
      ("token " ++ APIKey)) s.remote = (.ok body, remote1))
    (hdec : net.Decode body = (TravisBuildResponse.zero, some err)) :
    (getBuilds net repo 100 off s).1 = .ok TravisBuildResponse.zero ∧
    (getBuilds net repo 100 off s).2.logged = s.logged ++ [err] ∧
    (∃ t, processLoop net repo 100 initOffset (fuel + 1) fetched off s = .done t ∧
      t.writer = s.writer ∧ t.calls = s.calls ++ [(repo, 100, off)] ∧
      t.pages = s.pages ++ [TravisBuildResponse.zero]) ∧
    ((main scripted (k + 2) undecodableSecond).isDone = true ∧
      (main scripted (k + 2) undecodableSecond).isPanicked = false ∧
      (main scripted (k + 2) undecodableSecond).state.calls.length = 2 ∧
      (main scripted (k + 2) undecodableSecond).state.writer.flushes = 1 ∧
      (main scripted (k + 2) undecodableSecond).state.writer.records =
        [headers, line (sampleBuild 0), line (sampleBuild 1), line (sampleBuild 2)]) := by
  have hg : getBuilds net repo 100 off s =
      (.ok TravisBuildResponse.zero,
        { s with calls := s.calls ++ [(repo, 100, off)], remote := remote1,
                 sent := s.sent ++ [(req.HeaderAdd "Travis-API-Version" "3").HeaderAdd
                   "Authorization" ("token " ++ APIKey)],
                 logged := s.logged ++ [err],
                 pages := s.pages ++ [TravisBuildResponse.zero] }) := by
    rw [getBuilds_of_request net repo 100 off s req hreq, hdo]
    simp [hdec]
  refine ⟨by rw [hg], by rw [hg], ?_, ?_⟩
  · rw [processLoop_ok _ _ _ _ _ _ _ _ _ _ hg]
    refine ⟨_, if_pos rfl, ?_, rfl, rfl⟩
    rfl
  · have hd : (processAllBuilds scripted RepoId 7200 (k + 2)
        (State.start undecodableSecond createWriter)).isDone = true := by
      simp [processAllBuilds, processLoop, getBuilds_eq, scripted, State.start, undecodableSecond,
        Run.isDone, TravisBuildResponse.zero, PageRef.zero]
    have hpg : (processAllBuilds scripted RepoId 7200 (k + 2)
        (State.start undecodableSecond createWriter)).state.pages
          = [samplePage 3 150 100, TravisBuildResponse.zero] := by
      simp [processAllBuilds, processLoop, getBuilds_eq, scripted, State.start, undecodableSecond,
        Run.state, TravisBuildResponse.zero, PageRef.zero]
    obtain ⟨hr, hpg2, hc, hpn, hdn, hfl⟩ := main_state scripted (k + 2) undecodableSecond
    have t2 := processAllBuilds_trace scripted RepoId 7200 (k + 2) undecodableSecond createWriter
    have hcl := (processAllBuilds_calls scripted RepoId 7200 (k + 2) undecodableSecond
      createWriter).2
    have hnp := Run.not_isPanicked_of_isDone _ hd
    rw [hpg, hnp] at hcl
    refine ⟨by rw [hdn, hd], by rw [hpn, hnp], by rw [hc, hcl]; rfl, by rw [hfl, hd]; rfl, ?_⟩
    rw [hr, t2.records, hpg]
    rfl

/-- A body that is cut short: the decoder fails and stores nothing, the page
returned is the zero value, and the run whose second body is undecodable hands
4 records to the writer (the header and the 3 rows of the first page). -/
theorem getBuilds_decode_failure_witness :
    NewRequest "GET" (buildsURL RepoId 100 100) =
      .ok { Method := "GET", URL := travisURL RepoId 100 100, Header := [] } ∧
    scripted.Decode (TravisBuildResponse.zero, some "unexpected end of JSON input") =
      (TravisBuildResponse.zero, some "unexpected end of JSON input") ∧
    (getBuilds scripted RepoId 100 100
      (State.start [some (TravisBuildResponse.zero, some "unexpected end of JSON input")]
        createWriter)).1 = .ok TravisBuildResponse.zero ∧
    (main scripted 2 undecodableSecond).state.writer.records.length = 4 :=
  ⟨NewRequest_buildsURL RepoId 100 100 (by decide), rfl,
    (getBuilds_decode_failure scripted RepoId 0 0 0 100
      (State.start [some (TravisBuildResponse.zero, some "unexpected end of JSON input")]
        createWriter) _
      (TravisBuildResponse.zero, some "unexpected end of JSON input") []
      "unexpected end of JSON input" 0 (NewRequest_buildsURL RepoId 100 100 (by decide))
      rfl rfl).1,
    by rw [(getBuilds_decode_failure scripted RepoId 0 0 0 100
      (State.start [some (TravisBuildResponse.zero, some "unexpected end of JSON input")]
        createWriter) _
      (TravisBuildResponse.zero, some "unexpected end of JSON input") []
      "unexpected end of JSON input" 0 (NewRequest_buildsURL RepoId 100 100 (by decide))
      rfl rfl).2.2.2.2.2.2.2]; rfl⟩

theorem wrapInt_of_range (x : Int) (h1 : -2 ^ 63 ≤ x) (h2 : x < 2 ^ 63) : wrapInt x = x := by
  unfold wrapInt
  norm_num at h1 h2 ⊢
  omega

theorem consistent_sum_le (ps : List TravisBuildResponse) :
    ∀ (off : Int) (pl : TravisBuildResponse), (∀ p ∈ ps.dropLast, nextOf p ≠ 0) →
      ps.getLast? = some pl → nextOf pl = 0 → consistent off ps →
      (((ps.map (fun p => p.Builds.length)).sum : Nat) : Int) ≤ pl.Pagination.Count - off := by
  induction ps with
  | nil => intro off pl _ hl; simp at hl
  | cons p ps ih =>
    intro off pl hin hl hz hc
    cases ps with
    | nil =>
      simp only [List.getLast?_singleton, Option.some.injEq] at hl
      subst hl
      simp only [consistent, hz, if_true] at hc
      simpa using hc.1
    | cons q qs =>
      have hnz : nextOf p ≠ 0 := hin p (by simp)
      have hin2 : ∀ x ∈ (q :: qs).dropLast, nextOf x ≠ 0 := by
        intro x hx
        exact hin x (by simp only [List.dropLast_cons₂, List.mem_cons]; exact Or.inr hx)
      have hl2 : (q :: qs).getLast? = some pl := by
        simpa [List.getLast?_cons_cons] using hl
      obtain ⟨hc1, hc2⟩ := hc
      rw [if_neg hnz] at hc1
      have := ih (nextOf p) pl hin2 hl2 hz hc2
      simp only [List.map_cons, List.sum_cons, Nat.cast_add] at this ⊢
      omega

theorem progressOf_getLast (initOffset : Int) (ps : List TravisBuildResponse) :
    ∀ (fetched : Int) (pl : TravisBuildResponse), 0 ≤ fetched →
      fetched + (((ps.map (fun p => p.Builds.length)).sum : Nat) : Int) < 2 ^ 63 →
      ps.getLast? = some pl →
      (progressOf initOffset fetched ps).getLast? =
        some { fetched := fetched + (((ps.map (fun p => p.Builds.length)).sum : Nat) : Int),
               total := wrapInt (pl.Pagination.Count - initOffset) } := by
  induction ps with
  | nil => intro fetched pl _ _ hl; simp at hl
  | cons p ps ih =>
    intro fetched pl h0 hlt hl
    simp only [List.map_cons, List.sum_cons, Nat.cast_add] at hlt ⊢
    have hw : wrapInt (fetched + (p.Builds.length : Int)) = fetched + (p.Builds.length : Int) := by
      apply wrapInt_of_range
      · norm_num; omega
      · omega
    cases ps with
    | nil =>
      simp only [List.getLast?_singleton, Option.some.injEq] at hl
      subst hl
      simp [progressOf, hw]
    | cons q qs =>
      have hl2 : (q :: qs).getLast? = some pl := by
        simpa [List.getLast?_cons_cons] using hl
      have := ih (fetched + (p.Builds.length : Int)) pl (by omega) (by omega) hl2
      rw [progressOf, hw]
      rw [progressOf] at this ⊢
      rw [List.getLast?_cons_cons, this]
      simp only [List.map_cons, List.sum_cons, Nat.cast_add]
      congr 2
      omega

/-- C9, as stated, fails: when the repository holds fewer builds than the
starting offset (150 builds, start at 7200 as `main` does), the single page is
empty, the loop ends with a cumulative count of 0 and reports it against the
total 150 - 7200 = -7050, which the count exceeds. -/
theorem fetched_le_total_counterexample :
    (main scripted 1 pastEnd).isDone = true ∧
    (main scripted 1 pastEnd).state.pages = [samplePage 0 150 0] ∧
    (main scripted 1 pastEnd).state.stdout = [{ fetched := 0, total := -7050 }] ∧
    ¬ ((((main scripted 1 pastEnd).state.pages.map (fun p => p.Builds.length)).sum : Int)
        ≤ (samplePage 0 150 0).Pagination.Count - 7200) := by
  have hpg : (main scripted 1 pastEnd).state.pages = [samplePage 0 150 0] := by
    simp [main, processAllBuilds, processLoop, getBuilds_eq, scripted, State.start, pastEnd,
      Run.state]
  refine ⟨?_, hpg, ?_, ?_⟩
  · simp [main, processAllBuilds, processLoop, getBuilds_eq, scripted, State.start, pastEnd,
      Run.isDone]
  · simp [main, processAllBuilds, processLoop, getBuilds_eq, scripted, State.start, pastEnd,
      Run.state, wrapInt]
  · rw [hpg]
    simp

/-- C9 (amended): for every run of `processAllBuilds` that ends by `break`, if
the fetched pages are consistent with the pagination they report (a page
fetched at offset `o` holds at most `n - o` builds when its next offset is
`n ≠ 0`, and at most `Count - o` builds when its next offset is 0) and the
last page's `Count` minus the starting offset fits a Go `int`, then the last
progress line reports the sum of `len(page.Builds)` over the fetched pages
against the last page's `Count` minus the starting offset, and the former does
not exceed the latter. -/
theorem fetched_le_total (net : Net σ β) (repo : String) (off : Int) (fuel : Nat)
    (remote : σ) (w : Writer)
    (hd : (processAllBuilds net repo off fuel (State.start remote w)).isDone = true)
    (hc : consistent off (processAllBuilds net repo off fuel (State.start remote w)).state.pages)
    (hr : ∀ page,
      (processAllBuilds net repo off fuel (State.start remote w)).state.pages.getLast? = some page →
      page.Pagination.Count - off < 2 ^ 63) :
    ∃ page prog,
      (processAllBuilds net repo off fuel (State.start remote w)).state.pages.getLast? = some page ∧
      (processAllBuilds net repo off fuel (State.start remote w)).state.stdout.getLast? = some prog ∧
      prog.fetched = (((processAllBuilds net repo off fuel (State.start remote w)).state.pages.map
        (fun p => p.Builds.length)).sum : Nat) ∧
      prog.total = page.Pagination.Count - off ∧
      prog.fetched ≤ prog.total := by
  have t := processAllBuilds_trace net repo off fuel remote w
  obtain ⟨page, hl, hz⟩ := t.last_done hd
  have hsum := consistent_sum_le _ off page t.inner hl hz hc
  have hlt := hr page hl
  have hp := progressOf_getLast off _ 0 page (le_refl 0) (by omega) hl
  have hw : wrapInt (page.Pagination.Count - off) = page.Pagination.Count - off := by
    apply wrapInt_of_range
    · norm_num; omega
    · exact hlt
  have hs : (processAllBuilds net repo off fuel (State.start remote w)).state.stdout =
      progressOf off 0 (processAllBuilds net repo off fuel (State.start remote w)).state.pages := by
    have := t.stdout
    simpa [State.start] using this
  rw [hw, zero_add] at hp
  refine ⟨page,
    { fetched := (((processAllBuilds net repo off fuel (State.start remote w)).state.pages.map
        (fun p => p.Builds.length)).sum : Nat),
      total := page.Pagination.Count - off }, hl, ?_, rfl, rfl, hsum⟩
  rw [hs, hp]

/-- The two-page scenario (100 builds then 50, count 150, start 0): the last
progress line reports 150 of 150. -/
theorem fetched_le_total_witness :
    ∃ page prog,
      (processAllBuilds scripted RepoId 0 2 (State.start twoPages createWriter)).state.pages.getLast?
        = some page ∧
      (processAllBuilds scripted RepoId 0 2 (State.start twoPages createWriter)).state.stdout.getLast?
        = some prog ∧
      prog.fetched = (((processAllBuilds scripted RepoId 0 2
        (State.start twoPages createWriter)).state.pages.map (fun p => p.Builds.length)).sum : Nat) ∧
      prog.total = page.Pagination.Count - 0 ∧
      prog.fetched ≤ prog.total := by
  have hpg : (processAllBuilds scripted RepoId 0 2 (State.start twoPages createWriter)).state.pages
      = [samplePage 100 150 100, samplePage 50 150 0] := by
    simp [processAllBuilds, processLoop, getBuilds_eq, scripted, State.start, twoPages, Run.state]
  refine fetched_le_total scripted RepoId 0 2 twoPages createWriter ?_ ?_ ?_
  · simp [processAllBuilds, processLoop, getBuilds_eq, scripted, State.start, twoPages,
      Run.isDone]
  · rw [hpg]
    simp [consistent]
  · intro page hl
    rw [hpg] at hl
    simp only [List.getLast?_cons_cons, List.getLast?_singleton, Option.some.injEq] at hl
    subst hl
    norm_num

theorem getBuilds_ok_calls (net : Net σ β) (repo : String) (limit off : Int) (s s1 : State σ)
    (page : TravisBuildResponse) (h : getBuilds net repo limit off s = (.ok page, s1)) :
    s1.calls = s.calls ++ [(repo, limit, off)] := by
  rcases getBuilds_cases net repo limit off s with
    ⟨err, s2, hg, -⟩ | ⟨page2, s2, hg, hc, -⟩
  · rw [hg] at h; simp at h
  · rw [hg] at h
    simp only [Prod.mk.injEq, Outcome.ok.injEq] at h
    rw [← h.2]
    exact hc

theorem processLoop_paged (net : Net σ β) (repo : String) (s c : Int) (hs0 : 0 ≤ s)
    (H : ∀ (k : Nat), s + 100 * k < c → ∀ st : State σ, ∃ page st1,
      getBuilds net repo 100 (s + 100 * k) st = (.ok page, st1) ∧
      page.Pagination.Next.Offset = if s + 100 * k + 100 < c then s + 100 * k + 100 else 0)
    (m : Nat) :
    ∀ (k : Nat) (initOffset fetched : Int) (st : State σ),
      100 * (m : Int) < c - (s + 100 * k) → c - (s + 100 * k) ≤ 100 * (m + 1) →
      ∃ t, processLoop net repo 100 initOffset (m + 1) fetched (s + 100 * k) st = .done t ∧
        t.calls.length = st.calls.length + (m + 1) := by
  induction m with
  | zero =>
    intro k initOffset fetched st h1 h2
    obtain ⟨page, st1, hg, hn⟩ := H k (by omega) st
    have hz : nextOf page = 0 := by
      rw [nextOf, hn, if_neg (by omega)]
    rw [processLoop_ok _ _ _ _ _ _ _ _ _ _ hg, if_pos hz]
    refine ⟨_, rfl, ?_⟩
    simp [getBuilds_ok_calls _ _ _ _ _ _ _ hg]
  | succ m ih =>
    intro k initOffset fetched st h1 h2
    obtain ⟨page, st1, hg, hn⟩ := H k (by omega) st
    have hlt : s + 100 * (k : Int) + 100 < c := by push_cast at h1; omega
    have hnx : nextOf page = s + 100 * ((k + 1 : Nat) : Int) := by
      rw [nextOf, hn, if_pos hlt]; push_cast; ring
    have hnz : nextOf page ≠ 0 := by
      rw [hnx]; push_cast; omega
    rw [processLoop_ok _ _ _ _ _ _ _ _ _ _ hg, if_neg hnz, hnx]
    obtain ⟨t, ht, hcl⟩ := ih (k + 1) initOffset (wrapInt (fetched + page.Builds.length))
      { st1 with
        stdout := st1.stdout ++ [Progress.mk (wrapInt (fetched + page.Builds.length))
          (wrapInt (page.Pagination.Count - initOffset))],
        writer := writeToCSV page.Builds st1.writer }
      (by push_cast at h1 ⊢; omega) (by push_cast at h2 ⊢; omega)
    refine ⟨t, ht, ?_⟩
    rw [hcl]
    simp only [getBuilds_ok_calls _ _ _ _ _ _ _ hg, List.length_append, List.length_singleton]
    omega

/-- C1, as stated, fails.  (1) An empty repository (count 0, start 0): the loop
always fetches once, and `ceil((0 - 0) / 100) = 0`.  (2) Next offsets that
grow strictly but by 50 (count 150, start 0): 3 fetches, at offsets 0, 50
and 100, and `ceil(150 / 100) = 2`.  (3) A negative starting offset -100 whose
page reports next offset -100 + 100 = 0 (count 150): the loop takes it for the
last page and stops after 1 fetch, and `ceil((150 + 100) / 100) = 3`. -/
theorem fetch_count_counterexample :
    ((processAllBuilds scripted RepoId 0 1 (State.start noBuilds createWriter)).isDone = true ∧
      (processAllBuilds scripted RepoId 0 1 (State.start noBuilds createWriter)).state.calls.length
        = 1 ∧
      ⌈(((0 : Int) - 0 : Int) : ℚ) / 100⌉ = 0) ∧
    ((processAllBuilds scripted RepoId 0 3 (State.start strideFifty createWriter)).isDone = true ∧
      (processAllBuilds scripted RepoId 0 3 (State.start strideFifty createWriter)).state.calls
        = [(RepoId, 100, 0), (RepoId, 100, 50), (RepoId, 100, 100)] ∧
      ⌈(((150 : Int) - 0 : Int) : ℚ) / 100⌉ = 2) ∧
    ((processAllBuilds scripted RepoId (-100) 1
        (State.start [some (samplePage 100 150 0, none)] createWriter)).isDone = true ∧
      (processAllBuilds scripted RepoId (-100) 1
        (State.start [some (samplePage 100 150 0, none)] createWriter)).state.calls
        = [(RepoId, 100, -100)] ∧
      ⌈(((150 : Int) - (-100) : Int) : ℚ) / 100⌉ = 3) := by
  refine ⟨⟨?_, ?_, ?_⟩, ⟨?_, ?_, ?_⟩, ⟨?_, ?_, ?_⟩⟩
  · simp [processAllBuilds, processLoop, getBuilds_eq, scripted, State.start, noBuilds,
      Run.isDone]
  · simp [processAllBuilds, processLoop, getBuilds_eq, scripted, State.start, noBuilds,
      Run.state]
  · norm_num
  · simp [processAllBuilds, processLoop, getBuilds_eq, scripted, State.start, strideFifty,
      Run.isDone]
  · simp [processAllBuilds, processLoop, getBuilds_eq, scripted, State.start, strideFifty,
      Run.state]
  · rw [Int.ceil_eq_iff]; norm_num
  · simp [processAllBuilds, processLoop, getBuilds_eq, scripted, State.start, Run.isDone]
  · simp [processAllBuilds, processLoop, getBuilds_eq, scripted, State.start, Run.state]
  · rw [Int.ceil_eq_iff]; norm_num

/-- C1 (amended): for every starting offset `s` with `0 ≤ s < c` and every
provider that pages a total of `c` by steps of the limit 100 (asked at an
offset `o = s + 100 k < c`, it returns a page whose next offset is `o + 100`
when `o + 100 < c` and 0 otherwise), `processAllBuilds(repo, s, writer)` ends
by `break` after exactly `ceil((c - s) / 100)` calls of `getBuilds`: under
every budget of at least that many iterations the run is the same finished
run, with that many calls, and under a smaller budget the loop has not
stopped. -/
theorem fetch_count (net : Net σ β) (repo : String) (s c : Int) (remote : σ) (w : Writer)
    (hs0 : 0 ≤ s) (hsc : s < c)
    (H : ∀ (k : Nat), s + 100 * k < c → ∀ st : State σ, ∃ page st1,
      getBuilds net repo 100 (s + 100 * k) st = (.ok page, st1) ∧
      page.Pagination.Next.Offset = if s + 100 * k + 100 < c then s + 100 * k + 100 else 0) :
    ∃ (n : Nat) (t : State σ), (n : Int) = ⌈((c - s : Int) : ℚ) / 100⌉ ∧
      (∀ extra, processAllBuilds net repo s (n + extra) (State.start remote w) = .done t) ∧
      t.calls.length = n ∧
      (∀ fuel, fuel < n →
        (processAllBuilds net repo s fuel (State.start remote w)).isDone = false) := by
  obtain ⟨m, hm⟩ : ∃ m : Nat, (m : Int) = (c - s - 1) / 100 :=
    ⟨((c - s - 1) / 100).toNat, Int.toNat_of_nonneg (by omega)⟩
  have h1 : 100 * (m : Int) < c - s := by omega
  have h2 : c - s ≤ 100 * ((m : Int) + 1) := by omega
  obtain ⟨t, ht, hcl⟩ := processLoop_paged net repo s c hs0 H m 0 s 0 (State.start remote w)
    (by simpa using h1) (by simpa using h2)
  simp only [Nat.cast_zero, mul_zero, add_zero] at ht
  have hrun : ∀ extra, processAllBuilds net repo s (m + 1 + extra) (State.start remote w)
      = .done t := by
    intro extra
    have := processLoop_more net repo 100 s (m + 1) 0 s (State.start remote w) extra
      (by rw [ht]; exact Or.inl rfl)
    rw [ht] at this
    exact this
  have hlen : t.calls.length = m + 1 := by
    rw [hcl]; simp [State.start]
  refine ⟨m + 1, t, ?_, hrun, hlen, ?_⟩
  · symm
    rw [Int.ceil_eq_iff]
    have e1 : ((100 * (m : Int) : Int) : ℚ) < ((c - s : Int) : ℚ) := by exact_mod_cast h1
    have e2 : ((c - s : Int) : ℚ) ≤ ((100 * ((m : Int) + 1) : Int) : ℚ) := by exact_mod_cast h2
    push_cast at e1 e2 ⊢
    constructor
    · rw [lt_div_iff₀ (by norm_num)]; linarith
    · rw [div_le_iff₀ (by norm_num)]; linarith
  · intro fuel hf
    by_contra hd
    have hd2 : (processAllBuilds net repo s fuel (State.start remote w)).isDone = true := by
      simpa using hd
    have tr := processAllBuilds_trace net repo s fuel remote w
    have hb := tr.bound
    have hcl2 := (processAllBuilds_calls net repo s fuel remote w).2
    rw [Run.not_isPanicked_of_isDone _ hd2] at hcl2 hb
    have hsame : processAllBuilds net repo s (fuel + (m + 1 - fuel)) (State.start remote w) =
        processAllBuilds net repo s fuel (State.start remote w) :=
      processLoop_more net repo 100 s fuel 0 s (State.start remote w) (m + 1 - fuel) (Or.inl hd2)
    have hfu : fuel + (m + 1 - fuel) = m + 1 + 0 := by omega
    rw [hfu, hrun 0] at hsame
    rw [← hsame] at hcl2 hb
    simp only [Run.state, Bool.false_eq_true, if_false, Nat.add_zero] at hcl2 hb
    omega

/-- A repository of 250 builds read from offset 0: `ceil(250 / 100) = 3` calls. -/
theorem fetch_count_witness :
    ∃ (n : Nat) (t : State Unit), (n : Int) = ⌈(((250 : Int) - 0 : Int) : ℚ) / 100⌉ ∧
      (∀ extra, processAllBuilds (tabled repo250) RepoId 0 (n + extra)
        (State.start () createWriter) = .done t) ∧
      t.calls.length = n ∧
      (∀ fuel, fuel < n →
        (processAllBuilds (tabled repo250) RepoId 0 fuel
          (State.start () createWriter)).isDone = false) := by
  refine fetch_count (tabled repo250) RepoId 0 250 () createWriter (by decide) (by decide) ?_
  intro k hk st
  have l0 : repo250.lookup (buildsURL RepoId 100 0) = some (samplePage 100 250 100) := by rfl
  have l1 : repo250.lookup (buildsURL RepoId 100 100) = some (samplePage 100 250 200) := by rfl
  have l2 : repo250.lookup (buildsURL RepoId 100 200) = some (samplePage 50 250 0) := by rfl
  have hk3 : k < 3 := by omega
  interval_cases k
  · rw [getBuilds_eq]
    simp [tabled, requestFor, travisURL_String, l0]
  · rw [getBuilds_eq]
    simp [tabled, requestFor, travisURL_String, l1]
  · rw [getBuilds_eq]
    simp [tabled, requestFor, travisURL_String, l2]

/-- C10: in every run of `processAllBuilds(repo, s, writer)` the calls of
`getBuilds` are, in order, `(repo, 100, s)` and then `(repo, 100, o)` with `o`
the `Pagination.Next.Offset` of the page returned by the call before: every
call has the same repository and the limit 100, the first call (made as soon as
the loop may run once) has offset `s`, and call `i + 1` has the next offset of
page `i`.  The offset is taken from the page and not computed as previous
offset plus limit: when the first page, fetched at 0, reports next offset 250,
the second call asks for offset 250. -/
theorem processAllBuilds_call_arguments (net : Net σ β) (repo : String) (off : Int)
    (fuel : Nat) (remote : σ) (w : Writer) (k : Nat) :
    (processAllBuilds net repo off fuel (State.start remote w)).state.calls =
      ((off :: (processAllBuilds net repo off fuel (State.start remote w)).state.pages.map
          (fun page => page.Pagination.Next.Offset)).take
        (processAllBuilds net repo off fuel (State.start remote w)).state.calls.length).map
        (fun o => (repo, 100, o)) ∧
    (processAllBuilds net repo off fuel (State.start remote w)).state.calls.length ≤
      (processAllBuilds net repo off fuel (State.start remote w)).state.pages.length + 1 ∧
    (processAllBuilds net repo off (fuel + 1) (State.start remote w)).state.calls.head? =
      some (repo, 100, off) ∧
    (∀ (i : Nat) (c : String × Int × Int),
      (processAllBuilds net repo off fuel (State.start remote w)).state.calls[i + 1]? = some c →
      ∃ page, (processAllBuilds net repo off fuel (State.start remote w)).state.pages[i]?
          = some page ∧ c = (repo, 100, page.Pagination.Next.Offset)) ∧
    (processAllBuilds scripted RepoId 0 (k + 2) (State.start jumpPages createWriter)).state.calls =
      [(RepoId, 100, 0), (RepoId, 100, 250)] := by
  obtain ⟨hc, hl⟩ := processAllBuilds_calls net repo off fuel remote w
  refine ⟨hc, ?_, ?_, ?_, ?_⟩
  · rw [hl]; split <;> omega
  · obtain ⟨hc1, -⟩ := processAllBuilds_calls net repo off (fuel + 1) remote w
    have hpos := processAllBuilds_calls_pos net repo off fuel remote w
    rw [hc1]
    obtain ⟨n, hn⟩ : ∃ n, (processAllBuilds net repo off (fuel + 1)
        (State.start remote w)).state.calls.length = n + 1 := ⟨_, (Nat.succ_pred_eq_of_pos hpos).symm⟩
    rw [hn]
    simp
  · intro i c hi
    rw [hc] at hi
    simp only [List.getElem?_map, List.getElem?_take, List.getElem?_cons_succ] at hi
    split at hi
    · cases hpg : (processAllBuilds net repo off fuel (State.start remote w)).state.pages[i]? with
      | none => simp [hpg, nextOf] at hi
      | some page =>
        refine ⟨page, rfl, ?_⟩
        simp [hpg, nextOf] at hi
        exact hi.symm
    · simp at hi
  · have hd : (processAllBuilds scripted RepoId 0 (k + 2)
        (State.start jumpPages createWriter)).isDone = true := by
      simp [processAllBuilds, processLoop, getBuilds_eq, scripted, State.start, jumpPages,
        Run.isDone]
    have hpg : (processAllBuilds scripted RepoId 0 (k + 2)
        (State.start jumpPages createWriter)).state.pages
          = [samplePage 100 300 250, samplePage 50 300 0] := by
      simp [processAllBuilds, processLoop, getBuilds_eq, scripted, State.start, jumpPages,
        Run.state]
    obtain ⟨hc2, hl2⟩ := processAllBuilds_calls scripted RepoId 0 (k + 2) jumpPages createWriter
    rw [hpg, Run.not_isPanicked_of_isDone _ hd] at hl2
    rw [hc2, hl2, hpg]
    rfl

end Claims

end TravisDump
